import Mathlib

/-!
Verification of the metadata normalization and aggregation core of the
ImageAnalyse repository (`core.py`).

Raw EXIF values are modelled as a tagged union of the Python value shapes
the code handles (ints, finite floats as exact rationals, the float
not-a-number, strings, rational pairs, lists, and an opaque "other" shape).
Each `process_*` normalizer, the date parsing chain, the per-photo
aggregation fold of `process_folder`, the summary statistics of
`analyze_folder` and the histogram split point of `generate_chart` are
embedded as executable Lean functions.
-/

namespace ImageAnalyse

/-- A Python numeric scalar: an `int`, a finite `float` (modelled as an
exact rational), or the floating-point not-a-number value. -/
inductive PyNum where
  | pint (n : ℤ)
  | pfloat (q : ℚ)
  | pnan
deriving DecidableEq

/-- `math.isnan` on a numeric scalar (the code only calls it guarded by
`isinstance(x, (float, int))`). -/
def PyNum.isnan : PyNum → Bool
  | .pnan => true
  | _ => false

/-- The exact value of a numeric scalar, as used by `float(x)`; only ever
used by the code after an `isnan` guard, so the value at `pnan` is
irrelevant (we pick 0). -/
def PyNum.qval : PyNum → ℚ
  | .pint n => (n : ℚ)
  | .pfloat q => q
  | .pnan => 0

/-- A raw EXIF metadata value: the union of value shapes `core.py`
distinguishes with `isinstance` tests.  `pair` is a two-element tuple of
numbers (an EXIF rational), `list` a Python list of numbers, `other` any
object on which `float`/`int` conversion raises `TypeError`. -/
inductive RawValue where
  | num (a : PyNum)
  | str (s : String)
  | pair (a b : PyNum)
  | list (xs : List PyNum)
  | other
deriving DecidableEq

/-- Whether a raw value is a Python `str`. -/
def RawValue.isStr : RawValue → Bool
  | .str _ => true
  | _ => false

/-- The characters `str.strip()` removes (ASCII whitespace). -/
def isPyWs (c : Char) : Bool :=
  (c == ' ') || (c == '\t') || (c == '\n') || (c == '\r') || (c == '\x0b') || (c == '\x0c')

/-- `str.strip()`: drop leading and trailing whitespace. -/
def stripChars (cs : List Char) : List Char :=
  ((cs.dropWhile isPyWs).reverse.dropWhile isPyWs).reverse

/-- Numeric value of a digit string. -/
def digitsVal (cs : List Char) : ℕ :=
  cs.foldl (fun a c => 10 * a + (c.toNat - 48)) 0

/-- Parse a nonempty all-digit character string. -/
def parseNatDigits (cs : List Char) : Option ℕ :=
  if cs ≠ [] ∧ cs.all Char.isDigit then some (digitsVal cs) else none

/-- Python `int(s)` on a string: strip whitespace, optional sign, digits;
`None` (an exception in the source, caught by the caller) otherwise. -/
def pyIntOfString (s : String) : Option ℤ :=
  match stripChars s.data with
  | '+' :: rest => (parseNatDigits rest).map (fun n => (n : ℤ))
  | '-' :: rest => (parseNatDigits rest).map (fun n => -(n : ℤ))
  | cs => (parseNatDigits cs).map (fun n => (n : ℤ))

/-- Python `float(s)` on a string (decimal forms `d+`, `d+.d*`, `.d+`,
optionally signed and surrounded by whitespace); exponents and the words
`inf`/`nan` are not modelled — unparseable text maps to `none`, which the
callers turn into "absent" through their exception handlers. -/
def pyFloatOfChars (cs : List Char) : Option ℚ :=
  let ip := cs.takeWhile Char.isDigit
  let rest := cs.drop ip.length
  match rest with
  | [] => if ip ≠ [] then some ((digitsVal ip : ℚ)) else none
  | '.' :: fp =>
      if fp.all Char.isDigit ∧ (ip ≠ [] ∨ fp ≠ []) then
        some ((digitsVal ip : ℚ) + (digitsVal fp : ℚ) / (10 : ℚ) ^ fp.length)
      else none
  | _ => none

/-- Python `float(s)` with sign and whitespace handling. -/
def pyFloatOfString (s : String) : Option ℚ :=
  match stripChars s.data with
  | '+' :: rest => pyFloatOfChars rest
  | '-' :: rest => (pyFloatOfChars rest).map (fun q => -q)
  | cs => pyFloatOfChars cs

/-- Python `round(x)`: round to the nearest integer, ties to even. -/
def roundHalfEven (q : ℚ) : ℤ :=
  if q - ⌊q⌋ < 1 / 2 then ⌊q⌋
  else if 1 / 2 < q - ⌊q⌋ then ⌊q⌋ + 1
  else if ⌊q⌋ % 2 = 0 then ⌊q⌋ else ⌊q⌋ + 1

/-- Python `round(x, k)`: round to `k` decimal places, ties to even
(idealized to exact decimal arithmetic). -/
def roundTo (k : ℕ) (q : ℚ) : ℚ :=
  (roundHalfEven (q * (10 : ℚ) ^ k) : ℚ) / (10 : ℚ) ^ k

/-- `process_focal_length` (core.py:30): `nan` components and zero
denominators yield `None`; a rational pair rounds `n/d` to the nearest
integer; a scalar rounds directly; any other shape raises inside the
`try` block and is caught, yielding `None`. -/
def process_focal_length (v : RawValue) : Option ℤ :=
  match v with
  | .num a => if a.isnan then none else some (roundHalfEven a.qval)
  | .pair a b =>
      if a.isnan || b.isnan then none
      else if b.qval = 0 then none
      else some (roundHalfEven (a.qval / b.qval))
  | .str s => (pyFloatOfString s).map roundHalfEven
  | .list _ => none
  | .other => none

/-- Python `int(x)` on a numeric scalar: ints pass through, floats
truncate toward zero, `int(nan)` raises (`none`). -/
def pyIntOfNum : PyNum → Option ℤ
  | .pint n => some n
  | .pfloat q => some (if 0 ≤ q then ⌊q⌋ else ⌈q⌉)
  | .pnan => none

/-- `process_iso_value` (core.py:48): a tuple or list contributes its
first element, a string is parsed with `int`, then the value is coerced
with `int` and kept only when it lies in `[50, 512000]`; every failure
path (empty sequence, unparseable text, `nan`, other shapes) is caught
and yields `None`. -/
def process_iso_value (v : RawValue) : Option ℤ :=
  (match v with
   | .pair a _ => pyIntOfNum a
   | .list xs => match xs with
     | [] => none
     | x :: _ => pyIntOfNum x
   | .str s => pyIntOfString s
   | .num a => pyIntOfNum a
   | .other => none).bind
    (fun n => if 50 ≤ n ∧ n ≤ 512000 then some n else none)

/-- `process_aperture` (core.py:62): like `process_focal_length` but
rounding to 1 decimal place. -/
def process_aperture (v : RawValue) : Option ℚ :=
  match v with
  | .num a => if a.isnan then none else some (roundTo 1 a.qval)
  | .pair a b =>
      if a.isnan || b.isnan then none
      else if b.qval = 0 then none
      else some (roundTo 1 (a.qval / b.qval))
  | .str s => (pyFloatOfString s).map (roundTo 1)
  | .list _ => none
  | .other => none

/-- `process_shutter_speed` (core.py:78): like `process_aperture` but
rounding to 4 decimal places. -/
def process_shutter_speed (v : RawValue) : Option ℚ :=
  match v with
  | .num a => if a.isnan then none else some (roundTo 4 a.qval)
  | .pair a b =>
      if a.isnan || b.isnan then none
      else if b.qval = 0 then none
      else some (roundTo 4 (a.qval / b.qval))
  | .str s => (pyFloatOfString s).map (roundTo 4)
  | .list _ => none
  | .other => none

/-! ### Date parsing: CPython `datetime.strptime` for the five formats

`strptime` compiles a format into a regular expression (module
`_strptime`): `%Y` matches exactly four digits, `%m` matches
`1[0-2]|0[1-9]|[1-9]`, `%d` matches `3[01]|[12]\d|0[1-9]|[1-9]`, `%H`
matches `2[0-3]|[0-1]\d|\d`, `%M` matches `[0-5]\d|\d`, `%S` matches
`6[0-1]|[0-5]\d|\d`, a whitespace run in the format matches one or more
whitespace characters, and any other character matches itself; the whole
string must be consumed.  Alternatives are tried left to right with
backtracking.  The matched fields are then passed to the `datetime`
constructor, which validates them (rejecting day numbers beyond the
month length, leap seconds, and year 0) and raises `ValueError` on
failure. -/

/-- One token of a compiled strptime format. -/
inductive Tok where
  | lit (c : Char)
  | ws
  | Y
  | m
  | d
  | H
  | M
  | S
deriving DecidableEq

/-- Fields recovered by a strptime match, with CPython's defaults. -/
structure ParseAcc where
  py : ℕ := 1900
  pmo : ℕ := 1
  pda : ℕ := 1
  ph : ℕ := 0
  pmi : ℕ := 0
  ps : ℕ := 0
deriving DecidableEq

/-- Numeric value of a digit character. -/
def digitVal (c : Char) : ℕ := c.toNat - 48

/-- Bool test that a character lies in an inclusive range. -/
def chBetween (lo hi c : Char) : Bool := decide (lo ≤ c) && decide (c ≤ hi)

/-- Field updaters used by the token matcher. -/
def setY (n : ℕ) (a : ParseAcc) : ParseAcc := { a with py := n }

/-- Set the month field. -/
def setMo (n : ℕ) (a : ParseAcc) : ParseAcc := { a with pmo := n }

/-- Set the day field. -/
def setDa (n : ℕ) (a : ParseAcc) : ParseAcc := { a with pda := n }

/-- Set the hour field. -/
def setH (n : ℕ) (a : ParseAcc) : ParseAcc := { a with ph := n }

/-- Set the minute field. -/
def setMi (n : ℕ) (a : ParseAcc) : ParseAcc := { a with pmi := n }

/-- Set the second field. -/
def setS (n : ℕ) (a : ParseAcc) : ParseAcc := { a with ps := n }

/-- The candidate matches of one token at the head of a string, as
`(field update, remaining characters)` pairs in the order the compiled
regular expression tries its alternatives. -/
def tokAlts : Tok → List Char → List ((ParseAcc → ParseAcc) × List Char)
  | .lit c, cs =>
      match cs with
      | c' :: rest => if c' = c then [(id, rest)] else []
      | [] => []
  | .ws, cs =>
      let run := (cs.takeWhile isPyWs).length
      ((List.range run).reverse.map (fun j => (id, cs.drop (j + 1))))
  | .Y, cs =>
      match cs with
      | c1 :: c2 :: c3 :: c4 :: rest =>
          if c1.isDigit && c2.isDigit && c3.isDigit && c4.isDigit then
            [(setY (digitsVal [c1, c2, c3, c4]), rest)]
          else []
      | _ => []
  | .m, cs =>
      (match cs with
       | c1 :: c2 :: rest =>
           (if c1 == '1' && chBetween '0' '2' c2 then
             [(setMo (10 + digitVal c2), rest)] else []) ++
           (if c1 == '0' && chBetween '1' '9' c2 then
             [(setMo (digitVal c2), rest)] else [])
       | _ => []) ++
      (match cs with
       | c1 :: rest =>
           if chBetween '1' '9' c1 then
             [(setMo (digitVal c1), rest)] else []
       | _ => [])
  | .d, cs =>
      (match cs with
       | c1 :: c2 :: rest =>
           (if c1 == '3' && (c2 == '0' || c2 == '1') then
             [(setDa (30 + digitVal c2), rest)] else []) ++
           (if (c1 == '1' || c1 == '2') && c2.isDigit then
             [(setDa (10 * digitVal c1 + digitVal c2), rest)] else []) ++
           (if c1 == '0' && chBetween '1' '9' c2 then
             [(setDa (digitVal c2), rest)] else [])
       | _ => []) ++
      (match cs with
       | c1 :: rest =>
           if chBetween '1' '9' c1 then
             [(setDa (digitVal c1), rest)] else []
       | _ => [])
  | .H, cs =>
      (match cs with
       | c1 :: c2 :: rest =>
           (if c1 == '2' && chBetween '0' '3' c2 then
             [(setH (20 + digitVal c2), rest)] else []) ++
           (if (c1 == '0' || c1 == '1') && c2.isDigit then
             [(setH (10 * digitVal c1 + digitVal c2), rest)] else [])
       | _ => []) ++
      (match cs with
       | c1 :: rest =>
           if c1.isDigit then [(setH (digitVal c1), rest)] else []
       | _ => [])
  | .M, cs =>
      (match cs with
       | c1 :: c2 :: rest =>
           if chBetween '0' '5' c1 && c2.isDigit then
             [(setMi (10 * digitVal c1 + digitVal c2), rest)] else []
       | _ => []) ++
      (match cs with
       | c1 :: rest =>
           if c1.isDigit then [(setMi (digitVal c1), rest)] else []
       | _ => [])
  | .S, cs =>
      (match cs with
       | c1 :: c2 :: rest =>
           (if c1 == '6' && (c2 == '0' || c2 == '1') then
             [(setS (60 + digitVal c2), rest)] else []) ++
           (if chBetween '0' '5' c1 && c2.isDigit then
             [(setS (10 * digitVal c1 + digitVal c2), rest)] else [])
       | _ => []) ++
      (match cs with
       | c1 :: rest =>
           if c1.isDigit then [(setS (digitVal c1), rest)] else []
       | _ => [])

/-- Backtracking matcher for a token sequence: the whole input must be
consumed; alternatives are explored depth-first in regex order. -/
def runToks (toks : List Tok) : List Char → ParseAcc → Option ParseAcc :=
  toks.foldr
    (fun t k => fun cs acc => (tokAlts t cs).findSome? (fun pr => k pr.2 (pr.1 acc)))
    (fun cs acc => if cs = [] then some acc else none)

/-- A parsed calendar date. -/
structure Date where
  year : ℕ
  month : ℕ
  day : ℕ
deriving DecidableEq

/-- A parsed date-time. -/
structure DateTime where
  year : ℕ
  month : ℕ
  day : ℕ
  hour : ℕ
  minute : ℕ
  second : ℕ
deriving DecidableEq

/-- `datetime.date()`. -/
def DateTime.date (dt : DateTime) : Date := ⟨dt.year, dt.month, dt.day⟩

/-- Gregorian leap-year test. -/
def isLeap (y : ℕ) : Bool := (y % 4 = 0 ∧ y % 100 ≠ 0) ∨ y % 400 = 0

/-- Number of days in a month. -/
def daysInMonth (y mth : ℕ) : ℕ :=
  if mth = 2 then (if isLeap y then 29 else 28)
  else if mth = 4 ∨ mth = 6 ∨ mth = 9 ∨ mth = 11 then 30
  else 31

/-- The `datetime` constructor's validation: it raises `ValueError`
(modelled as `none`) unless all fields are in range. -/
def mkDateTime (a : ParseAcc) : Option DateTime :=
  if 1 ≤ a.py ∧ a.py ≤ 9999 ∧ 1 ≤ a.pmo ∧ a.pmo ≤ 12 ∧
     1 ≤ a.pda ∧ a.pda ≤ daysInMonth a.py a.pmo ∧
     a.ph ≤ 23 ∧ a.pmi ≤ 59 ∧ a.ps ≤ 59 then
    some ⟨a.py, a.pmo, a.pda, a.ph, a.pmi, a.ps⟩
  else none

/-- `datetime.strptime(s, fmt)` for one compiled format, returning
`none` where CPython raises `ValueError`. -/
def strptimeFmt (toks : List Tok) (s : String) : Option DateTime :=
  (runToks toks s.data {}).bind mkDateTime

/-- Compiled `'%Y:%m:%d %H:%M:%S'` (the strict canonical EXIF format). -/
def fmtCanonical : List Tok :=
  [.Y, .lit ':', .m, .lit ':', .d, .ws, .H, .lit ':', .M, .lit ':', .S]

/-- Compiled `'%Y-%m-%d %H:%M:%S'`. -/
def fmtDash : List Tok :=
  [.Y, .lit '-', .m, .lit '-', .d, .ws, .H, .lit ':', .M, .lit ':', .S]

/-- Compiled `'%Y%m%d_%H%M%S'`. -/
def fmtCompact : List Tok := [.Y, .m, .d, .lit '_', .H, .M, .S]

/-- Compiled `'%Y_%m_%d %H:%M:%S'`. -/
def fmtUnderscore : List Tok :=
  [.Y, .lit '_', .m, .lit '_', .d, .ws, .H, .lit ':', .M, .lit ':', .S]

/-- Compiled `'%Y%m%d%H%M%S'`. -/
def fmtDigits : List Tok := [.Y, .m, .d, .H, .M, .S]

/-- The fallback chain of `try_parse_date` (core.py:98), in source order. -/
def date_formats : List (List Tok) :=
  [fmtCanonical, fmtDash, fmtCompact, fmtUnderscore, fmtDigits]

/-- The cleaning step of `try_parse_date` (core.py:110):
`date_string.replace('\x00', '').strip()`. -/
def cleanDateChars (cs : List Char) : List Char :=
  stripChars (cs.filter (fun c => c ≠ '\x00'))

/-- `try_parse_date` (core.py:96): `None` for non-strings and for the
empty (falsy) string; otherwise clean the string and return the first
format of the fallback chain that parses it. -/
def try_parse_date (v : RawValue) : Option DateTime :=
  match v with
  | .str s =>
      if s = "" then none
      else date_formats.findSome? (fun f => strptimeFmt f (String.mk (cleanDateChars s.data)))
  | _ => none

/-! ### Aggregation (`process_folder`, core.py:119)

A photo arrives as its EXIF record: a mapping from tag names to raw
values (an empty mapping for unreadable photos, which the loop skips).
The Python `dict` accumulators are modelled as association lists with
unique keys, mutated exactly as the source mutates them (`d.get(k, 0) +
1`, preserving insertion order); the 24 hourly buckets are a function
from hour to bucket.  The ISO/aperture/shutter blocks re-parse the raw
date with `datetime.strptime(raw, '%Y:%m:%d %H:%M:%S')` guarded only by
`except ValueError`; when the raw date value is not a string `strptime`
raises `TypeError`, which escapes the loop — the whole fold is therefore
`Option`-valued, `none` meaning the uncaught exception. -/

/-- A per-photo EXIF record (tag name to raw value). -/
abbrev Record := List (String × RawValue)

/-- Dictionary lookup (`d[k]` / `'k' in d`): first matching key. -/
def rget : Record → String → Option RawValue
  | [], _ => none
  | (k, v) :: rest, t => if k = t then some v else rget rest t

/-- Dictionary counter lookup `d.get(k, 0)`. -/
def alget {K : Type} [DecidableEq K] : List (K × ℕ) → K → ℕ
  | [], _ => 0
  | (k', n) :: rest, k => if k = k' then n else alget rest k

/-- Dictionary counter increment `d[k] = d.get(k, 0) + 1`, preserving
insertion order as a Python dict does. -/
def bump {K : Type} [DecidableEq K] : List (K × ℕ) → K → List (K × ℕ)
  | [], k => [(k, 1)]
  | (k', n) :: rest, k => if k = k' then (k', n + 1) :: rest else (k', n) :: bump rest k

/-- Sum of the counter values (`sum(d.values())`). -/
def sumValues {K : Type} (l : List (K × ℕ)) : ℕ := (l.map Prod.snd).sum

/-- One hour's parameter bucket (`hourly_settings[h]`). -/
@[ext]
structure HourBucket where
  apertures : List ℚ
  shutter_speeds : List ℚ
  isos : List ℤ
deriving DecidableEq

/-- The empty bucket. -/
def initBucket : HourBucket := ⟨[], [], []⟩

/-- The mutable aggregation state of `process_folder`. -/
@[ext]
structure AggState where
  focal_lengths : List ℤ
  dates : List (Date × ℕ)
  hours : List (ℕ × ℕ)
  iso : List (ℤ × ℕ)
  apertures : List (ℚ × ℕ)
  shutter_speeds : List (ℚ × ℕ)
  hourly : ℕ → HourBucket

/-- The initial state (empty accumulators, 24 empty buckets). -/
def initState : AggState := ⟨[], [], [], [], [], [], fun _ => initBucket⟩

/-- Point update of the bucket map. -/
def updateHour (f : ℕ → HourBucket) (h : ℕ) (b : HourBucket) : ℕ → HourBucket :=
  fun h' => if h' = h then b else f h'

/-- Outcome of the guarded strict-format parse inside a parameter block
(core.py:167-173 and its two copies): `skip` when the date tag is absent
or `strptime` raises `ValueError` (caught, `pass`); `bucket h` when the
strict canonical parse succeeds with hour `h`; `typeError` when the raw
date value is not a string, so `strptime` raises `TypeError`, which the
`except ValueError` clause does not catch. -/
inductive StrictHour where
  | skip
  | bucket (h : ℕ)
  | typeError
deriving DecidableEq

/-- The strict-format parse of the raw `DateTimeOriginal` value used for
hourly-bucket placement. -/
def strictHour (r : Record) : StrictHour :=
  match rget r "DateTimeOriginal" with
  | none => .skip
  | some (.str s) =>
      match strptimeFmt fmtCanonical s with
      | some dt => .bucket dt.hour
      | none => .skip
  | some _ => .typeError

/-- The focal-length block (core.py:149-152); note `if focal_length:`
drops a normalized value of 0. -/
def stepFocal (r : Record) (st : AggState) : AggState :=
  match rget r "FocalLength" with
  | none => st
  | some raw =>
      match process_focal_length raw with
      | none => st
      | some f =>
          if f = 0 then st
          else { st with focal_lengths := st.focal_lengths ++ [f] }

/-- The capture-date block (core.py:155-160): the lenient fallback chain
feeds the daily and hourly counters. -/
def stepDate (r : Record) (st : AggState) : AggState :=
  match rget r "DateTimeOriginal" with
  | none => st
  | some raw =>
      match try_parse_date raw with
      | none => st
      | some dt =>
          { st with dates := bump st.dates dt.date, hours := bump st.hours dt.hour }

/-- The ISO block (core.py:163-173). -/
def stepIso (r : Record) (st : AggState) : Option AggState :=
  match rget r "ISOSpeedRatings" with
  | none => some st
  | some raw =>
      match process_iso_value raw with
      | none => some st
      | some v =>
          if v = 0 then some st
          else
            let st1 := { st with iso := bump st.iso v }
            match strictHour r with
            | .typeError => none
            | .skip => some st1
            | .bucket h =>
                let b := st1.hourly h
                some { st1 with hourly := updateHour st1.hourly h { b with isos := b.isos ++ [v] } }

/-- The aperture block (core.py:176-186). -/
def stepAperture (r : Record) (st : AggState) : Option AggState :=
  match rget r "FNumber" with
  | none => some st
  | some raw =>
      match process_aperture raw with
      | none => some st
      | some v =>
          if v = 0 then some st
          else
            let st1 := { st with apertures := bump st.apertures v }
            match strictHour r with
            | .typeError => none
            | .skip => some st1
            | .bucket h =>
                let b := st1.hourly h
                some { st1 with hourly := updateHour st1.hourly h { b with apertures := b.apertures ++ [v] } }

/-- The shutter-speed block (core.py:189-199). -/
def stepShutter (r : Record) (st : AggState) : Option AggState :=
  match rget r "ExposureTime" with
  | none => some st
  | some raw =>
      match process_shutter_speed raw with
      | none => some st
      | some v =>
          if v = 0 then some st
          else
            let st1 := { st with shutter_speeds := bump st.shutter_speeds v }
            match strictHour r with
            | .typeError => none
            | .skip => some st1
            | .bucket h =>
                let b := st1.hourly h
                some { st1 with hourly := updateHour st1.hourly h { b with shutter_speeds := b.shutter_speeds ++ [v] } }

/-- One iteration of the photo loop (core.py:143-199): an empty record is
skipped (`if not exif_data: continue`), then the five field blocks run in
source order; `none` propagates the uncaught `TypeError`. -/
def stepRecord (st : AggState) (r : Record) : Option AggState :=
  if r.isEmpty then some st
  else
    match stepIso r (stepDate r (stepFocal r st)) with
    | none => none
    | some st1 =>
        match stepAperture r st1 with
        | none => none
        | some st2 => stepShutter r st2

/-- The photo loop folded over a record sequence. -/
def processRecords (st : AggState) : List Record → Option AggState
  | [] => some st
  | r :: rs =>
      match stepRecord st r with
      | none => none
      | some st' => processRecords st' rs

/-- `process_folder` (core.py:119), with the record sequence supplied by
the external discovery/metadata collaborators: `none` models the run
dying on an uncaught `TypeError`. -/
def process_folder (rs : List Record) : Option AggState :=
  processRecords initState rs

/-! ### Summary statistics (`analyze_folder`, core.py:473-488) -/

/-- `total_photos = sum(dates.values())` (core.py:473). -/
def total_photos (dates : List (Date × ℕ)) : ℕ := sumValues dates

/-- The focal-length median (core.py:476-484): keep truthy (non-zero)
samples, sort ascending, take the middle element or the mean of the two
middle elements. -/
def focal_length_median (fl : List ℤ) : ℚ :=
  let valid := fl.filter (fun f => decide (f ≠ 0))
  if valid.length = 0 then 0
  else
    let sorted := valid.insertionSort (· ≤ ·)
    let mid := sorted.length / 2
    if sorted.length % 2 = 0 then
      ((sorted.getD (mid - 1) 0 : ℚ) + (sorted.getD mid 0 : ℚ)) / 2
    else (sorted.getD mid 0 : ℚ)

/-- `daily_average = total_photos / num_days if num_days > 0 else 0`
(core.py:487-488), where `num_days = len(dates)`. -/
def daily_average (dates : List (Date × ℕ)) : ℚ :=
  if 0 < dates.length then (total_photos dates : ℚ) / (dates.length : ℚ) else 0

/-! ### Histogram split point (`generate_chart`, core.py:259-277)

`plt.hist(data, bins=20)` computes 20 equal-width bins over
`[min(data), max(data)]` (NumPy widens a degenerate range by 0.5 on each
side); in exact arithmetic a sample `x` falls in bin
`min(19, ⌊20(x-lo)/(hi-lo)⌋)`.  The loop then walks the bins,
accumulating counts until the running sum reaches half the total, and
linearly interpolates inside that bin. -/

/-- `min(data)` over a nonempty list. -/
def listMin (x : ℚ) (xs : List ℚ) : ℚ := xs.foldl min x

/-- `max(data)` over a nonempty list. -/
def listMax (x : ℚ) (xs : List ℚ) : ℚ := xs.foldl max x

/-- NumPy's bin index for a sample in `[lo, hi]` with 20 uniform bins
(the last bin is closed on the right). -/
def histBinIndex (lo hi x : ℚ) : ℕ := min 19 (⌊20 * (x - lo) / (hi - lo)⌋).toNat

/-- Count of samples in bin `i`. -/
def histCount (lo hi : ℚ) (data : List ℚ) (i : ℕ) : ℕ :=
  (data.filter (fun x => histBinIndex lo hi x == i)).length

/-- Bin edge `i` of 20 uniform bins over `[lo, hi]`. -/
def binEdge (lo hi : ℚ) (i : ℕ) : ℚ := lo + i * (hi - lo) / 20

/-- The accumulation loop (core.py:267-277): on the first bin where the
running sum reaches `half`, interpolate
`left + ((half - prev_sum) / count) * (right - left)`; if the loop ends
without breaking, `split_point` is unbound (`none`: the source would
raise `NameError`). -/
def splitWalk (half : ℚ) : ℚ → List (ℕ × ℚ × ℚ) → Option ℚ
  | _, [] => none
  | c, (cnt, le, re) :: rest =>
      if half ≤ c + cnt then some (le + ((half - c) / (cnt : ℚ)) * (re - le))
      else splitWalk half (c + cnt) rest

/-- The "population midpoint" annotation of the focal-length chart. -/
def split_point (data : List ℚ) : Option ℚ :=
  match data with
  | [] => none
  | x :: xs =>
      let mn := listMin x xs
      let mx := listMax x xs
      let lo := if mn = mx then mn - 1 / 2 else mn
      let hi := if mn = mx then mx + 1 / 2 else mx
      let half := (data.length : ℚ) / 2
      splitWalk half 0 ((List.range 20).map (fun i =>
        (histCount lo hi data i, binEdge lo hi i, binEdge lo hi (i + 1))))

/-! ### Per-record contribution functions

These describe what one record adds to each accumulator; they are the
vocabulary of the order-independence and invariant theorems, and each is
proved to characterize the corresponding imperative block. -/

/-- The focal length a record appends to the sample list, if any. -/
def cfocal (r : Record) : Option ℤ :=
  if r.isEmpty then none
  else
    match (rget r "FocalLength").bind process_focal_length with
    | none => none
    | some f => if f = 0 then none else some f

/-- The parsed capture date-time of a record under the fallback chain. -/
def cdt (r : Record) : Option DateTime :=
  if r.isEmpty then none else (rget r "DateTimeOriginal").bind try_parse_date

/-- The calendar-day key a record adds to the date counter. -/
def cdate (r : Record) : Option Date := (cdt r).map DateTime.date

/-- The hour key a record adds to the hour counter. -/
def chour (r : Record) : Option ℕ := (cdt r).map DateTime.hour

/-- The ISO value a record adds to the ISO counter. -/
def ciso (r : Record) : Option ℤ :=
  if r.isEmpty then none
  else
    match (rget r "ISOSpeedRatings").bind process_iso_value with
    | none => none
    | some v => if v = 0 then none else some v

/-- The aperture value a record adds to the aperture counter. -/
def cap (r : Record) : Option ℚ :=
  if r.isEmpty then none
  else
    match (rget r "FNumber").bind process_aperture with
    | none => none
    | some v => if v = 0 then none else some v

/-- The shutter-speed value a record adds to the shutter counter. -/
def csh (r : Record) : Option ℚ :=
  if r.isEmpty then none
  else
    match (rget r "ExposureTime").bind process_shutter_speed with
    | none => none
    | some v => if v = 0 then none else some v

/-- Whether processing a record raises the uncaught `TypeError`: some
parameter block reaches its guarded strict parse while the raw date
value is not a string. -/
def crashes (r : Record) : Bool :=
  !r.isEmpty && strictHour r == .typeError &&
    ((ciso r).isSome || (cap r).isSome || (csh r).isSome)

/-- The `(hour, value)` pair a record appends to an hourly ISO bucket. -/
def cbIso (r : Record) : Option (ℕ × ℤ) :=
  match ciso r, strictHour r with
  | some v, .bucket h => some (h, v)
  | _, _ => none

/-- The `(hour, value)` pair a record appends to an hourly aperture
bucket. -/
def cbAp (r : Record) : Option (ℕ × ℚ) :=
  match cap r, strictHour r with
  | some v, .bucket h => some (h, v)
  | _, _ => none

/-- The `(hour, value)` pair a record appends to an hourly shutter-speed
bucket. -/
def cbSh (r : Record) : Option (ℕ × ℚ) :=
  match csh r, strictHour r with
  | some v, .bucket h => some (h, v)
  | _, _ => none

/-- The per-hour projection of a bucket contribution list. -/
def atHour {α : Type} (h : ℕ) (l : List (ℕ × α)) : List α :=
  l.filterMap (fun p => if p.1 = h then some p.2 else none)

/-- Increment by an optional key (no-op for `none`). -/
def bumpOpt {K : Type} [DecidableEq K] (l : List (K × ℕ)) : Option K → List (K × ℕ)
  | none => l
  | some k => bump l k

/-- The declarative effect of one record on the aggregation state: each
contribution function applied once.  `stepRecord` is proved equal to this
whenever the record does not crash the loop. -/
def applyContrib (r : Record) (st : AggState) : AggState :=
  ⟨st.focal_lengths ++ (cfocal r).toList,
   bumpOpt st.dates (cdate r),
   bumpOpt st.hours (chour r),
   bumpOpt st.iso (ciso r),
   bumpOpt st.apertures (cap r),
   bumpOpt st.shutter_speeds (csh r),
   fun h => ⟨(st.hourly h).apertures ++ atHour h (cbAp r).toList,
             (st.hourly h).shutter_speeds ++ atHour h (cbSh r).toList,
             (st.hourly h).isos ++ atHour h (cbIso r).toList⟩⟩

/-- The focal-length block's effect, declaratively. -/
def withFocal (r : Record) (st : AggState) : AggState :=
  ⟨st.focal_lengths ++ (cfocal r).toList, st.dates, st.hours, st.iso,
   st.apertures, st.shutter_speeds, st.hourly⟩

/-- The capture-date block's effect, declaratively. -/
def withDate (r : Record) (st : AggState) : AggState :=
  ⟨st.focal_lengths, bumpOpt st.dates (cdate r), bumpOpt st.hours (chour r),
   st.iso, st.apertures, st.shutter_speeds, st.hourly⟩

/-- The ISO block's effect when it does not raise, declaratively. -/
def withIso (r : Record) (st : AggState) : AggState :=
  ⟨st.focal_lengths, st.dates, st.hours, bumpOpt st.iso (ciso r),
   st.apertures, st.shutter_speeds,
   fun h => ⟨(st.hourly h).apertures, (st.hourly h).shutter_speeds,
             (st.hourly h).isos ++ atHour h (cbIso r).toList⟩⟩

/-- The aperture block's effect when it does not raise, declaratively. -/
def withAp (r : Record) (st : AggState) : AggState :=
  ⟨st.focal_lengths, st.dates, st.hours, st.iso,
   bumpOpt st.apertures (cap r), st.shutter_speeds,
   fun h => ⟨(st.hourly h).apertures ++ atHour h (cbAp r).toList,
             (st.hourly h).shutter_speeds, (st.hourly h).isos⟩⟩

/-- The shutter block's effect when it does not raise, declaratively. -/
def withSh (r : Record) (st : AggState) : AggState :=
  ⟨st.focal_lengths, st.dates, st.hours, st.iso, st.apertures,
   bumpOpt st.shutter_speeds (csh r),
   fun h => ⟨(st.hourly h).apertures,
             (st.hourly h).shutter_speeds ++ atHour h (cbSh r).toList,
             (st.hourly h).isos⟩⟩

/-- `foldContribs` is the declarative fold of per-record contributions;
`process_folder` is proved to compute it on non-crashing inputs. -/
def foldContribs (rs : List Record) (st : AggState) : AggState :=
  rs.foldl (fun s r => applyContrib r s) st

/-! ## Dictionary lemmas -/

theorem alget_bump {K : Type} [DecidableEq K] (l : List (K × ℕ)) (k j : K) :
    alget (bump l k) j = alget l j + if j = k then 1 else 0 := by
  induction l with
  | nil => by_cases hj : j = k <;> simp [bump, alget, hj]
  | cons p rest ih =>
      obtain ⟨k', n⟩ := p
      by_cases hk : k = k'
      · subst hk
        by_cases hj : j = k <;> simp [bump, alget, hj]
      · simp only [bump, if_neg hk]
        by_cases hj : j = k'
        · have hjk : j ≠ k := by rintro rfl; exact hk hj
          have hk2 : ¬k' = k := fun h => hk h.symm
          simp [alget, hj, hjk, hk2]
        · simp [alget, hj, ih]

theorem sumValues_bump {K : Type} [DecidableEq K] (l : List (K × ℕ)) (k : K) :
    sumValues (bump l k) = sumValues l + 1 := by
  induction l with
  | nil => simp [bump, sumValues]
  | cons p rest ih =>
      obtain ⟨k', n⟩ := p
      by_cases hk : k = k' <;> simp [bump, hk, sumValues] <;>
        simp [sumValues] at ih <;> omega

theorem keys_bump {K : Type} [DecidableEq K] (l : List (K × ℕ)) (k : K) :
    (bump l k).map Prod.fst =
      if k ∈ l.map Prod.fst then l.map Prod.fst else l.map Prod.fst ++ [k] := by
  induction l with
  | nil => simp [bump]
  | cons p rest ih =>
      obtain ⟨k', n⟩ := p
      by_cases hk : k = k' <;> simp_all [bump] <;> split_ifs <;> simp_all

theorem nodup_keys_bump {K : Type} [DecidableEq K] (l : List (K × ℕ)) (k : K)
    (h : (l.map Prod.fst).Nodup) : ((bump l k).map Prod.fst).Nodup := by
  rw [keys_bump]
  split_ifs with hm
  · exact h
  · simp [List.nodup_append, h, hm]

theorem alget_foldl {K : Type} [DecidableEq K] (ks : List K) (l : List (K × ℕ)) (j : K) :
    alget (ks.foldl bump l) j = alget l j + ks.count j := by
  induction ks generalizing l with
  | nil => simp
  | cons k ks ih =>
      simp only [List.foldl_cons, ih, alget_bump, List.count_cons]
      split_ifs <;> simp_all <;> omega

theorem sumValues_foldl {K : Type} [DecidableEq K] (ks : List K) (l : List (K × ℕ)) :
    sumValues (ks.foldl bump l) = sumValues l + ks.length := by
  induction ks generalizing l with
  | nil => simp
  | cons k ks ih => simp only [List.foldl_cons, ih, sumValues_bump, List.length_cons]; omega

theorem nodup_keys_foldl {K : Type} [DecidableEq K] (ks : List K) (l : List (K × ℕ))
    (h : (l.map Prod.fst).Nodup) : ((ks.foldl bump l).map Prod.fst).Nodup := by
  induction ks generalizing l with
  | nil => simpa
  | cons k ks ih => exact ih _ (nodup_keys_bump _ _ h)

theorem keys_toFinset_foldl {K : Type} [DecidableEq K] (ks : List K) (l : List (K × ℕ)) :
    ((ks.foldl bump l).map Prod.fst).toFinset =
      (l.map Prod.fst).toFinset ∪ ks.toFinset := by
  induction ks generalizing l with
  | nil => simp
  | cons k ks ih =>
      simp only [List.foldl_cons, ih, keys_bump, List.toFinset_cons]
      split_ifs with hm
      · ext a
        simp only [Finset.mem_union, List.mem_toFinset, Finset.mem_insert]
        constructor
        · rintro (h | h)
          · exact Or.inl h
          · exact Or.inr (Or.inr h)
        · rintro (h | rfl | h)
          · exact Or.inl h
          · exact Or.inl hm
          · exact Or.inr h
      · ext a
        simp only [List.toFinset_append, List.toFinset_cons, List.toFinset_nil,
          Finset.mem_union, Finset.mem_insert, List.mem_toFinset, Finset.mem_singleton]
        tauto

theorem length_foldl_bump {K : Type} [DecidableEq K] (ks : List K) (l : List (K × ℕ))
    (h : (l.map Prod.fst).Nodup) :
    (ks.foldl bump l).length = ((l.map Prod.fst).toFinset ∪ ks.toFinset).card := by
  have h1 : (ks.foldl bump l).length = ((ks.foldl bump l).map Prod.fst).length := by
    simp
  rw [h1, ← List.toFinset_card_of_nodup (nodup_keys_foldl ks l h), keys_toFinset_foldl]

/-! ## Characterization of the per-record step -/

theorem stepFocal_eq (r : Record) (st : AggState) (he : r.isEmpty = false) :
    stepFocal r st = withFocal r st := by
  unfold stepFocal withFocal cfocal
  simp only [he, Bool.false_eq_true, if_false]
  cases hg : rget r "FocalLength" with
  | none => simp
  | some raw =>
      cases hp : process_focal_length raw with
      | none => simp [hp]
      | some f => by_cases hf : f = 0 <;> simp [hp, hf]

theorem stepDate_eq (r : Record) (st : AggState) (he : r.isEmpty = false) :
    stepDate r st = withDate r st := by
  unfold stepDate withDate cdate chour cdt
  simp only [he, Bool.false_eq_true, if_false]
  cases hg : rget r "DateTimeOriginal" with
  | none => simp [bumpOpt]
  | some raw =>
      cases hp : try_parse_date raw with
      | none => simp [hp, bumpOpt]
      | some dt => simp [hp, bumpOpt]

theorem stepIso_eq (r : Record) (st : AggState) (he : r.isEmpty = false) :
    stepIso r st =
      if (ciso r).isSome ∧ strictHour r = .typeError then none
      else some (withIso r st) := by
  have hc : ciso r = match (rget r "ISOSpeedRatings").bind process_iso_value with
      | none => none
      | some v => if v = 0 then none else some v := by
    unfold ciso; simp [he]
  unfold stepIso withIso cbIso
  cases hg : rget r "ISOSpeedRatings" with
  | none =>
      simp only [hg, Option.none_bind] at hc
      simp [hc, bumpOpt, atHour]
  | some raw =>
      cases hp : process_iso_value raw with
      | none =>
          simp only [hg, hp, Option.some_bind] at hc
          simp [hc, hp, bumpOpt, atHour]
      | some v =>
          simp only [hg, hp, Option.some_bind] at hc
          by_cases hv : v = 0
          · simp only [hv, if_pos rfl] at hc
            simp [hc, hp, hv, bumpOpt, atHour]
          · rw [if_neg hv] at hc
            cases hs : strictHour r with
            | typeError => simp [hc, hp, hv, hs]
            | skip => simp [hc, hp, hv, hs, bumpOpt, atHour]
            | bucket h0 =>
                simp only [hc, hp, hv, hs, if_neg hv, Option.isSome_some, true_and]
                have hne : ¬(StrictHour.bucket h0 = StrictHour.typeError) := by simp
                simp only [hne, if_false]
                apply congrArg
                refine AggState.ext rfl rfl rfl (by simp [bumpOpt]) rfl rfl ?_
                funext h
                by_cases hh : h = h0
                · subst hh; simp [updateHour, atHour]
                · have hh2 : ¬h0 = h := fun hcon => hh hcon.symm
                  simp [updateHour, hh, hh2, atHour]

theorem stepAperture_eq (r : Record) (st : AggState) (he : r.isEmpty = false) :
    stepAperture r st =
      if (cap r).isSome ∧ strictHour r = .typeError then none
      else some (withAp r st) := by
  have hc : cap r = match (rget r "FNumber").bind process_aperture with
      | none => none
      | some v => if v = 0 then none else some v := by
    unfold cap; simp [he]
  unfold stepAperture withAp cbAp
  cases hg : rget r "FNumber" with
  | none =>
      simp only [hg, Option.none_bind] at hc
      simp [hc, bumpOpt, atHour]
  | some raw =>
      cases hp : process_aperture raw with
      | none =>
          simp only [hg, hp, Option.some_bind] at hc
          simp [hc, hp, bumpOpt, atHour]
      | some v =>
          simp only [hg, hp, Option.some_bind] at hc
          by_cases hv : v = 0
          · simp only [hv, if_pos rfl] at hc
            simp [hc, hp, hv, bumpOpt, atHour]
          · rw [if_neg hv] at hc
            cases hs : strictHour r with
            | typeError => simp [hc, hp, hv, hs]
            | skip => simp [hc, hp, hv, hs, bumpOpt, atHour]
            | bucket h0 =>
                simp only [hc, hp, hv, hs, if_neg hv, Option.isSome_some, true_and]
                have hne : ¬(StrictHour.bucket h0 = StrictHour.typeError) := by simp
                simp only [hne, if_false]
                apply congrArg
                refine AggState.ext rfl rfl rfl rfl (by simp [bumpOpt]) rfl ?_
                funext h
                by_cases hh : h = h0
                · subst hh; simp [updateHour, atHour]
                · have hh2 : ¬h0 = h := fun hcon => hh hcon.symm
                  simp [updateHour, hh, hh2, atHour]

theorem stepShutter_eq (r : Record) (st : AggState) (he : r.isEmpty = false) :
    stepShutter r st =
      if (csh r).isSome ∧ strictHour r = .typeError then none
      else some (withSh r st) := by
  have hc : csh r = match (rget r "ExposureTime").bind process_shutter_speed with
      | none => none
      | some v => if v = 0 then none else some v := by
    unfold csh; simp [he]
  unfold stepShutter withSh cbSh
  cases hg : rget r "ExposureTime" with
  | none =>
      simp only [hg, Option.none_bind] at hc
      simp [hc, bumpOpt, atHour]
  | some raw =>
      cases hp : process_shutter_speed raw with
      | none =>
          simp only [hg, hp, Option.some_bind] at hc
          simp [hc, hp, bumpOpt, atHour]
      | some v =>
          simp only [hg, hp, Option.some_bind] at hc
          by_cases hv : v = 0
          · simp only [hv, if_pos rfl] at hc
            simp [hc, hp, hv, bumpOpt, atHour]
          · rw [if_neg hv] at hc
            cases hs : strictHour r with
            | typeError => simp [hc, hp, hv, hs]
            | skip => simp [hc, hp, hv, hs, bumpOpt, atHour]
            | bucket h0 =>
                simp only [hc, hp, hv, hs, if_neg hv, Option.isSome_some, true_and]
                have hne : ¬(StrictHour.bucket h0 = StrictHour.typeError) := by simp
                simp only [hne, if_false]
                apply congrArg
                refine AggState.ext rfl rfl rfl rfl rfl (by simp [bumpOpt]) ?_
                funext h
                by_cases hh : h = h0
                · subst hh; simp [updateHour, atHour]
                · have hh2 : ¬h0 = h := fun hcon => hh hcon.symm
                  simp [updateHour, hh, hh2, atHour]

theorem stepRecord_eq (st : AggState) (r : Record) :
    stepRecord st r = if crashes r then none else some (applyContrib r st) := by
  by_cases he : r.isEmpty
  · have hc : crashes r = false := by simp [crashes, he]
    have h1 : cfocal r = none := by simp [cfocal, he]
    have h2 : cdt r = none := by simp [cdt, he]
    have h4 : ciso r = none := by simp [ciso, he]
    have h5 : cap r = none := by simp [cap, he]
    have h6 : csh r = none := by simp [csh, he]
    have hb1 : cbIso r = none := by simp [cbIso, h4]
    have hb2 : cbAp r = none := by simp [cbAp, h5]
    have hb3 : cbSh r = none := by simp [cbSh, h6]
    rw [hc]
    simp only [stepRecord, he, if_true, Bool.false_eq_true, if_false]
    refine congrArg some (AggState.ext ?_ ?_ ?_ ?_ ?_ ?_ ?_)
    · simp [applyContrib, h1]
    · simp [applyContrib, cdate, h2, bumpOpt]
    · simp [applyContrib, chour, h2, bumpOpt]
    · simp [applyContrib, h4, bumpOpt]
    · simp [applyContrib, h5, bumpOpt]
    · simp [applyContrib, h6, bumpOpt]
    · funext h
      refine (HourBucket.ext ?_ ?_ ?_).symm <;> simp [applyContrib, hb1, hb2, hb3, atHour]
  · have he' : r.isEmpty = false := by simpa using he
    have hrec : stepRecord st r =
        match stepIso r (stepDate r (stepFocal r st)) with
        | none => none
        | some st1 =>
            match stepAperture r st1 with
            | none => none
            | some st2 => stepShutter r st2 := by
      simp [stepRecord, he']
    rw [hrec, stepFocal_eq r st he', stepDate_eq r _ he', stepIso_eq r _ he']
    by_cases hi : (ciso r).isSome ∧ strictHour r = .typeError
    · have hcr : crashes r = true := by simp [crashes, he', hi.1, hi.2]
      simp [hi, hcr]
    · rw [if_neg hi]
      simp only
      rw [stepAperture_eq r _ he']
      by_cases ha : (cap r).isSome ∧ strictHour r = .typeError
      · have hcr : crashes r = true := by simp [crashes, he', ha.1, ha.2]
        simp [ha, hcr]
      · rw [if_neg ha]
        simp only
        rw [stepShutter_eq r _ he']
        by_cases hs : (csh r).isSome ∧ strictHour r = .typeError
        · have hcr : crashes r = true := by simp [crashes, he', hs.1, hs.2]
          simp [hs, hcr]
        · have hcr : crashes r = false := by
            by_cases ht : strictHour r = .typeError
            · have i1 : (ciso r).isSome = false := by
                cases hx : (ciso r).isSome
                · rfl
                · exact absurd ⟨hx, ht⟩ hi
              have i2 : (cap r).isSome = false := by
                cases hx : (cap r).isSome
                · rfl
                · exact absurd ⟨hx, ht⟩ ha
              have i3 : (csh r).isSome = false := by
                cases hx : (csh r).isSome
                · rfl
                · exact absurd ⟨hx, ht⟩ hs
              simp [crashes, he', ht, i1, i2, i3]
            · simp [crashes, ht]
          rw [if_neg hs, hcr]
          simp only [Bool.false_eq_true, if_false]
          rfl

/-! ## The whole fold -/

theorem processRecords_eq (rs : List Record) (st : AggState) :
    processRecords st rs = if rs.any crashes then none else some (foldContribs rs st) := by
  induction rs generalizing st with
  | nil => simp [processRecords, foldContribs]
  | cons r rs ih =>
      simp only [processRecords, stepRecord_eq, List.any_cons]
      by_cases hc : crashes r
      · simp [hc]
      · simp only [hc, Bool.false_eq_true, if_false, Bool.false_or]
        rw [ih]
        simp [foldContribs]

theorem atHour_append {α : Type} (h : ℕ) (l1 l2 : List (ℕ × α)) :
    atHour h (l1 ++ l2) = atHour h l1 ++ atHour h l2 := by
  simp [atHour]

theorem foldContribs_focal (rs : List Record) (st : AggState) :
    (foldContribs rs st).focal_lengths = st.focal_lengths ++ rs.filterMap cfocal := by
  induction rs generalizing st with
  | nil => simp [foldContribs]
  | cons r rs ih =>
      rw [foldContribs, List.foldl_cons, ← foldContribs, ih, List.filterMap_cons]
      cases h : cfocal r <;> simp [applyContrib, h]

theorem foldContribs_dates (rs : List Record) (st : AggState) :
    (foldContribs rs st).dates = (rs.filterMap cdate).foldl bump st.dates := by
  induction rs generalizing st with
  | nil => simp [foldContribs]
  | cons r rs ih =>
      rw [foldContribs, List.foldl_cons, ← foldContribs, ih, List.filterMap_cons]
      cases h : cdate r <;> simp [applyContrib, h, bumpOpt]

theorem foldContribs_hours (rs : List Record) (st : AggState) :
    (foldContribs rs st).hours = (rs.filterMap chour).foldl bump st.hours := by
  induction rs generalizing st with
  | nil => simp [foldContribs]
  | cons r rs ih =>
      rw [foldContribs, List.foldl_cons, ← foldContribs, ih, List.filterMap_cons]
      cases h : chour r <;> simp [applyContrib, h, bumpOpt]

theorem foldContribs_iso (rs : List Record) (st : AggState) :
    (foldContribs rs st).iso = (rs.filterMap ciso).foldl bump st.iso := by
  induction rs generalizing st with
  | nil => simp [foldContribs]
  | cons r rs ih =>
      rw [foldContribs, List.foldl_cons, ← foldContribs, ih, List.filterMap_cons]
      cases h : ciso r <;> simp [applyContrib, h, bumpOpt]

theorem foldContribs_apertures (rs : List Record) (st : AggState) :
    (foldContribs rs st).apertures = (rs.filterMap cap).foldl bump st.apertures := by
  induction rs generalizing st with
  | nil => simp [foldContribs]
  | cons r rs ih =>
      rw [foldContribs, List.foldl_cons, ← foldContribs, ih, List.filterMap_cons]
      cases h : cap r <;> simp [applyContrib, h, bumpOpt]

theorem foldContribs_shutter (rs : List Record) (st : AggState) :
    (foldContribs rs st).shutter_speeds =
      (rs.filterMap csh).foldl bump st.shutter_speeds := by
  induction rs generalizing st with
  | nil => simp [foldContribs]
  | cons r rs ih =>
      rw [foldContribs, List.foldl_cons, ← foldContribs, ih, List.filterMap_cons]
      cases h : csh r <;> simp [applyContrib, h, bumpOpt]

theorem foldContribs_hourly_isos (rs : List Record) (st : AggState) (h : ℕ) :
    ((foldContribs rs st).hourly h).isos =
      (st.hourly h).isos ++ atHour h (rs.filterMap cbIso) := by
  induction rs generalizing st with
  | nil => simp [foldContribs, atHour]
  | cons r rs ih =>
      rw [foldContribs, List.foldl_cons, ← foldContribs, ih, List.filterMap_cons]
      cases hx : cbIso r with
      | none => simp [applyContrib, hx, atHour]
      | some p =>
          have hsplit : atHour h (p :: List.filterMap cbIso rs) =
              atHour h [p] ++ atHour h (List.filterMap cbIso rs) := by
            rw [← atHour_append]
            simp
          simp [applyContrib, hx, hsplit, List.append_assoc]

theorem foldContribs_hourly_aps (rs : List Record) (st : AggState) (h : ℕ) :
    ((foldContribs rs st).hourly h).apertures =
      (st.hourly h).apertures ++ atHour h (rs.filterMap cbAp) := by
  induction rs generalizing st with
  | nil => simp [foldContribs, atHour]
  | cons r rs ih =>
      rw [foldContribs, List.foldl_cons, ← foldContribs, ih, List.filterMap_cons]
      cases hx : cbAp r with
      | none => simp [applyContrib, hx, atHour]
      | some p =>
          have hsplit : atHour h (p :: List.filterMap cbAp rs) =
              atHour h [p] ++ atHour h (List.filterMap cbAp rs) := by
            rw [← atHour_append]
            simp
          simp [applyContrib, hx, hsplit, List.append_assoc]

theorem foldContribs_hourly_shs (rs : List Record) (st : AggState) (h : ℕ) :
    ((foldContribs rs st).hourly h).shutter_speeds =
      (st.hourly h).shutter_speeds ++ atHour h (rs.filterMap cbSh) := by
  induction rs generalizing st with
  | nil => simp [foldContribs, atHour]
  | cons r rs ih =>
      rw [foldContribs, List.foldl_cons, ← foldContribs, ih, List.filterMap_cons]
      cases hx : cbSh r with
      | none => simp [applyContrib, hx, atHour]
      | some p =>
          have hsplit : atHour h (p :: List.filterMap cbSh rs) =
              atHour h [p] ++ atHour h (List.filterMap cbSh rs) := by
            rw [← atHour_append]
            simp
          simp [applyContrib, hx, hsplit, List.append_assoc]

/-! ## Helper facts about contributions -/

theorem process_folder_some (rs : List Record) (s : AggState)
    (h : process_folder rs = some s) :
    s = foldContribs rs initState ∧ rs.any crashes = false := by
  rw [process_folder, processRecords_eq] at h
  by_cases hc : rs.any crashes = true
  · rw [if_pos hc] at h; cases h
  · rw [if_neg hc] at h
    cases h
    exact ⟨rfl, by simpa using hc⟩

theorem cfocal_ne_zero (r : Record) : cfocal r ≠ some 0 := by
  intro hc
  by_cases he : r.isEmpty
  · simp [cfocal, he] at hc
  · rw [cfocal] at hc
    simp only [he, Bool.false_eq_true, if_false] at hc
    cases h : (rget r "FocalLength").bind process_focal_length with
    | none => simp only [h] at hc; cases hc
    | some v =>
        simp only [h] at hc
        by_cases hv : v = 0
        · rw [if_pos hv] at hc; cases hc
        · rw [if_neg hv] at hc; cases hc; exact hv rfl

theorem ciso_ne_zero (r : Record) : ciso r ≠ some 0 := by
  intro hc
  by_cases he : r.isEmpty
  · simp [ciso, he] at hc
  · rw [ciso] at hc
    simp only [he, Bool.false_eq_true, if_false] at hc
    cases h : (rget r "ISOSpeedRatings").bind process_iso_value with
    | none => simp only [h] at hc; cases hc
    | some v =>
        simp only [h] at hc
        by_cases hv : v = 0
        · rw [if_pos hv] at hc; cases hc
        · rw [if_neg hv] at hc; cases hc; exact hv rfl

theorem cap_ne_zero (r : Record) : cap r ≠ some 0 := by
  intro hc
  by_cases he : r.isEmpty
  · simp [cap, he] at hc
  · rw [cap] at hc
    simp only [he, Bool.false_eq_true, if_false] at hc
    cases h : (rget r "FNumber").bind process_aperture with
    | none => simp only [h] at hc; cases hc
    | some v =>
        simp only [h] at hc
        by_cases hv : v = 0
        · rw [if_pos hv] at hc; cases hc
        · rw [if_neg hv] at hc; cases hc; exact hv rfl

theorem csh_ne_zero (r : Record) : csh r ≠ some 0 := by
  intro hc
  by_cases he : r.isEmpty
  · simp [csh, he] at hc
  · rw [csh] at hc
    simp only [he, Bool.false_eq_true, if_false] at hc
    cases h : (rget r "ExposureTime").bind process_shutter_speed with
    | none => simp only [h] at hc; cases hc
    | some v =>
        simp only [h] at hc
        by_cases hv : v = 0
        · rw [if_pos hv] at hc; cases hc
        · rw [if_neg hv] at hc; cases hc; exact hv rfl

theorem mem_keys_foldl {K : Type} [DecidableEq K] (ks : List K) (x : K)
    (h : x ∈ (ks.foldl bump ([] : List (K × ℕ))).map Prod.fst) : x ∈ ks := by
  have h2 : x ∈ ((ks.foldl bump ([] : List (K × ℕ))).map Prod.fst).toFinset :=
    List.mem_toFinset.2 h
  rw [keys_toFinset_foldl] at h2
  simpa using h2

theorem mem_atHour {α : Type} (h : ℕ) (l : List (ℕ × α)) (x : α)
    (hm : x ∈ atHour h l) : ∃ p ∈ l, p.2 = x := by
  rw [atHour] at hm
  obtain ⟨p, hp, he⟩ := List.mem_filterMap.1 hm
  by_cases hph : p.1 = h
  · rw [if_pos hph] at he
    exact ⟨p, hp, by injection he⟩
  · rw [if_neg hph] at he
    cases he

/-! ## Claims -/

/-- C3: the claim states that every malformed per-record or per-field
value — including non-text date values — is recovered locally and the
aggregation never aborts.  The code violates this: in the ISO block the
raw `DateTimeOriginal` value is passed to `datetime.strptime` guarded
only by `except ValueError`, so a record carrying a valid ISO together
with a non-string date value raises an uncaught `TypeError` and aborts
the whole batch.  This theorem evaluates the embedded fold at that
failing input: the run dies (`none`) even though the batch holds a
second, perfectly well-formed record that is then never processed. -/
theorem claim_C3_nonstring_date_aborts_batch :
    process_folder
      [[("ISOSpeedRatings", .num (.pint 100)), ("DateTimeOriginal", .num (.pint 20230101))],
       [("DateTimeOriginal", .str "2023:05:01 10:20:30")]] = none ∧
    crashes [("ISOSpeedRatings", .num (.pint 100)),
             ("DateTimeOriginal", .num (.pint 20230101))] = true := by
  constructor
  · rfl
  · rfl

/-- C4: `process_iso_value` takes the first element of a pair or list,
parses text as an integer, accepts a plain integer, and returns the
integer exactly when it lies in `[50, 512000]`, `none` otherwise; it
never raises (every failure path yields `none`); in particular 25 and
512001 are rejected while 50 and 512000 are accepted. -/
theorem claim_C4_normalize_iso :
    (∀ n : ℤ, process_iso_value (.num (.pint n)) =
        if 50 ≤ n ∧ n ≤ 512000 then some n else none) ∧
    (∀ a b : PyNum, process_iso_value (.pair a b) =
        (pyIntOfNum a).bind (fun n => if 50 ≤ n ∧ n ≤ 512000 then some n else none)) ∧
    (∀ x : PyNum, ∀ xs : List PyNum, process_iso_value (.list (x :: xs)) =
        (pyIntOfNum x).bind (fun n => if 50 ≤ n ∧ n ≤ 512000 then some n else none)) ∧
    (∀ s : String, process_iso_value (.str s) =
        (pyIntOfString s).bind (fun n => if 50 ≤ n ∧ n ≤ 512000 then some n else none)) ∧
    (∀ v : RawValue, ∀ k : ℤ, process_iso_value v = some k → 50 ≤ k ∧ k ≤ 512000) ∧
    process_iso_value (.num (.pint 25)) = none ∧
    process_iso_value (.num (.pint 50)) = some 50 ∧
    process_iso_value (.num (.pint 512000)) = some 512000 ∧
    process_iso_value (.num (.pint 512001)) = none ∧
    process_iso_value (.str "not a number") = none ∧
    process_iso_value (.list []) = none ∧
    process_iso_value (.num .pnan) = none ∧
    process_iso_value .other = none := by
  refine ⟨fun n => rfl, fun a b => rfl, fun x xs => rfl, fun s => rfl, ?_,
    by decide, by decide, by decide, by decide, by decide, by decide, by decide, by decide⟩
  intro v k h
  unfold process_iso_value at h
  obtain ⟨a, _, hf⟩ := Option.bind_eq_some.1 h
  by_cases hc : 50 ≤ a ∧ a ≤ 512000
  · rw [if_pos hc] at hf
    cases hf
    exact hc
  · rw [if_neg hc] at hf
    cases hf

/-- C4 witness: the range-soundness clause applied at a concrete input. -/
theorem claim_C4_witness : 50 ≤ (100 : ℤ) ∧ (100 : ℤ) ≤ 512000 :=
  claim_C4_normalize_iso.2.2.2.2.1 (.num (.pint 100)) 100 (by decide)

/-- C5: on a rational pair `(n, d)` with `d ≠ 0` and no not-a-number
component, the three normalizers return `round(n/d)`, `round(n/d, 1)`
and `round(n/d, 4)` respectively; a zero denominator or a not-a-number
component yields `none`; a scalar numeric value is rounded at the same
respective precision. -/
theorem claim_C5_rational_normalizers :
    (∀ n d : ℚ, d ≠ 0 →
        process_focal_length (.pair (.pfloat n) (.pfloat d)) = some (roundHalfEven (n / d)) ∧
        process_aperture (.pair (.pfloat n) (.pfloat d)) = some (roundTo 1 (n / d)) ∧
        process_shutter_speed (.pair (.pfloat n) (.pfloat d)) = some (roundTo 4 (n / d))) ∧
    (∀ n : ℚ,
        process_focal_length (.pair (.pfloat n) (.pfloat 0)) = none ∧
        process_aperture (.pair (.pfloat n) (.pfloat 0)) = none ∧
        process_shutter_speed (.pair (.pfloat n) (.pfloat 0)) = none) ∧
    (∀ a b : PyNum, a.isnan = true ∨ b.isnan = true →
        process_focal_length (.pair a b) = none ∧
        process_aperture (.pair a b) = none ∧
        process_shutter_speed (.pair a b) = none) ∧
    (∀ q : ℚ,
        process_focal_length (.num (.pfloat q)) = some (roundHalfEven q) ∧
        process_aperture (.num (.pfloat q)) = some (roundTo 1 q) ∧
        process_shutter_speed (.num (.pfloat q)) = some (roundTo 4 q)) ∧
    (process_focal_length (.num .pnan) = none ∧
     process_aperture (.num .pnan) = none ∧
     process_shutter_speed (.num .pnan) = none) := by
  refine ⟨?_, ?_, ?_, ?_, by decide, by decide, by decide⟩
  · intro n d hd
    refine ⟨?_, ?_, ?_⟩ <;>
      simp [process_focal_length, process_aperture, process_shutter_speed,
        PyNum.isnan, PyNum.qval, hd]
  · intro n
    refine ⟨?_, ?_, ?_⟩ <;>
      simp [process_focal_length, process_aperture, process_shutter_speed,
        PyNum.isnan, PyNum.qval]
  · intro a b hab
    rcases hab with h | h <;> refine ⟨?_, ?_, ?_⟩ <;>
      simp [process_focal_length, process_aperture, process_shutter_speed, h]
  · intro q
    refine ⟨?_, ?_, ?_⟩ <;>
      simp [process_focal_length, process_aperture, process_shutter_speed,
        PyNum.isnan, PyNum.qval]

/-- C5 witness: the rational-pair clause applied at `(7, 2)`. -/
theorem claim_C5_witness :
    process_focal_length (.pair (.pfloat 7) (.pfloat 2)) = some (roundHalfEven ((7 : ℚ) / 2)) ∧
    process_aperture (.pair (.pfloat 7) (.pfloat 2)) = some (roundTo 1 ((7 : ℚ) / 2)) ∧
    process_shutter_speed (.pair (.pfloat 7) (.pfloat 2)) = some (roundTo 4 ((7 : ℚ) / 2)) :=
  claim_C5_rational_normalizers.1 7 2 (by decide)

/-- C10: a field whose normalized value equals 0 is dropped by the
truthiness checks of the aggregation loop: a focal length normalizing
to 0 is never appended to the sample list, an aperture or shutter speed
normalizing to 0 neither increments its frequency counter nor reaches a
bucket, and consequently 0 is never a key of the aperture or
shutter-speed counters nor an element of any hourly bucket. -/
theorem claim_C10_zero_is_absent :
    (∀ r : Record, ∀ raw, rget r "FocalLength" = some raw →
        process_focal_length raw = some 0 → cfocal r = none) ∧
    (∀ r : Record, ∀ raw, rget r "FNumber" = some raw →
        process_aperture raw = some 0 → cap r = none ∧ cbAp r = none) ∧
    (∀ r : Record, ∀ raw, rget r "ExposureTime" = some raw →
        process_shutter_speed raw = some 0 → csh r = none ∧ cbSh r = none) ∧
    (∀ rs : List Record, ∀ s : AggState, process_folder rs = some s →
        ((0 : ℚ) ∉ s.apertures.map Prod.fst ∧ (0 : ℚ) ∉ s.shutter_speeds.map Prod.fst) ∧
        (0 : ℤ) ∉ s.focal_lengths ∧
        ∀ h : ℕ, (0 : ℚ) ∉ (s.hourly h).apertures ∧
          (0 : ℚ) ∉ (s.hourly h).shutter_speeds ∧ (0 : ℤ) ∉ (s.hourly h).isos) := by
  refine ⟨?_, ?_, ?_, ?_⟩
  · intro r raw hg hz
    by_cases he : r.isEmpty <;> simp [cfocal, he, hg, hz]
  · intro r raw hg hz
    have hcap : cap r = none := by
      by_cases he : r.isEmpty <;> simp [cap, he, hg, hz]
    exact ⟨hcap, by simp [cbAp, hcap]⟩
  · intro r raw hg hz
    have hcsh : csh r = none := by
      by_cases he : r.isEmpty <;> simp [csh, he, hg, hz]
    exact ⟨hcsh, by simp [cbSh, hcsh]⟩
  · intro rs s h
    obtain ⟨hs, -⟩ := process_folder_some rs s h
    subst hs
    refine ⟨⟨?_, ?_⟩, ?_, ?_⟩
    · intro hm
      rw [foldContribs_apertures] at hm
      have : (0 : ℚ) ∈ rs.filterMap cap := mem_keys_foldl _ _ (by simpa [initState] using hm)
      obtain ⟨r, -, hr⟩ := List.mem_filterMap.1 this
      exact cap_ne_zero r hr
    · intro hm
      rw [foldContribs_shutter] at hm
      have : (0 : ℚ) ∈ rs.filterMap csh := mem_keys_foldl _ _ (by simpa [initState] using hm)
      obtain ⟨r, -, hr⟩ := List.mem_filterMap.1 this
      exact csh_ne_zero r hr
    · intro hm
      rw [foldContribs_focal] at hm
      simp only [initState, List.nil_append] at hm
      obtain ⟨r, -, hr⟩ := List.mem_filterMap.1 hm
      exact cfocal_ne_zero r hr
    · intro h
      refine ⟨?_, ?_, ?_⟩
      · intro hm
        rw [foldContribs_hourly_aps] at hm
        simp only [initState, initBucket, List.nil_append] at hm
        obtain ⟨p, hp, hp2⟩ := mem_atHour _ _ _ hm
        obtain ⟨r, -, hr⟩ := List.mem_filterMap.1 hp
        rw [cbAp] at hr
        cases hc : cap r with
        | none => rw [hc] at hr; cases hr
        | some v =>
            rw [hc] at hr
            cases hs : strictHour r with
            | skip => rw [hs] at hr; cases hr
            | typeError => rw [hs] at hr; cases hr
            | bucket h0 =>
                rw [hs] at hr
                cases hr
                exact cap_ne_zero r (by rw [hc, ← hp2])
      · intro hm
        rw [foldContribs_hourly_shs] at hm
        simp only [initState, initBucket, List.nil_append] at hm
        obtain ⟨p, hp, hp2⟩ := mem_atHour _ _ _ hm
        obtain ⟨r, -, hr⟩ := List.mem_filterMap.1 hp
        rw [cbSh] at hr
        cases hc : csh r with
        | none => rw [hc] at hr; cases hr
        | some v =>
            rw [hc] at hr
            cases hs : strictHour r with
            | skip => rw [hs] at hr; cases hr
            | typeError => rw [hs] at hr; cases hr
            | bucket h0 =>
                rw [hs] at hr
                cases hr
                exact csh_ne_zero r (by rw [hc, ← hp2])
      · intro hm
        rw [foldContribs_hourly_isos] at hm
        simp only [initState, initBucket, List.nil_append] at hm
        obtain ⟨p, hp, hp2⟩ := mem_atHour _ _ _ hm
        obtain ⟨r, -, hr⟩ := List.mem_filterMap.1 hp
        rw [cbIso] at hr
        cases hc : ciso r with
        | none => rw [hc] at hr; cases hr
        | some v =>
            rw [hc] at hr
            cases hs : strictHour r with
            | skip => rw [hs] at hr; cases hr
            | typeError => rw [hs] at hr; cases hr
            | bucket h0 =>
                rw [hs] at hr
                cases hr
                exact ciso_ne_zero r (by rw [hc, ← hp2])

/-- C10 witness: the invariant clause applied to a concrete run. -/
theorem claim_C10_witness :
    process_folder [[("ISOSpeedRatings", RawValue.num (.pint 200))]] =
      some ⟨[], [], [], [(200, 1)], [], [], fun _ => initBucket⟩ ∧
    (0 : ℚ) ∉ (AggState.mk [] [] [] [(200, 1)] [] [] (fun _ => initBucket)).apertures.map
      Prod.fst :=
  ⟨rfl, (claim_C10_zero_is_absent.2.2.2
    [[("ISOSpeedRatings", RawValue.num (.pint 200))]]
    (AggState.mk [] [] [] [(200, 1)] [] [] (fun _ => initBucket)) rfl).1.1⟩

/-! ## Characters consumed by a strptime match

These lemmas show that a successful match of the canonical format
consumes only digits, `':'` literals and whitespace, starts with a digit
and ends with a digit — hence the cleaning step of the fallback chain
(null removal and stripping) leaves such a string unchanged. -/

theorem le_digit_char {c : Char} (h : c.isDigit = true) : '0' ≤ c := by
  simp only [Char.isDigit, Bool.and_eq_true, decide_eq_true_eq] at h
  rw [Char.le_def]
  exact h.1

theorem not_ws_of_digit {c : Char} (h : c.isDigit = true) : isPyWs c = false := by
  have h0 : '0' ≤ c := le_digit_char h
  by_contra hw
  rw [Bool.not_eq_false] at hw
  have : ((((c = ' ' ∨ c = '\t') ∨ c = '\n') ∨ c = '\x0d') ∨ c = '\x0b') ∨ c = '\x0c' := by
    simpa [isPyWs] using hw
  rcases this with ((((rfl | rfl) | rfl) | rfl) | rfl) | rfl <;> exact absurd h0 (by decide)

theorem not_null_of_digit {c : Char} (h : c.isDigit = true) : c ≠ '\x00' := by
  have h0 : '0' ≤ c := le_digit_char h
  rintro rfl
  exact absurd h0 (by decide)

theorem isDigit_of_between {lo hi c : Char} (h : chBetween lo hi c = true)
    (hlo : '0' ≤ lo) (hhi : hi ≤ '9') : c.isDigit = true := by
  rw [chBetween, Bool.and_eq_true, decide_eq_true_eq, decide_eq_true_eq] at h
  have h1 : '0' ≤ c := le_trans hlo h.1
  have h2 : c ≤ '9' := le_trans h.2 hhi
  rw [Char.le_def] at h1 h2
  simp only [Char.isDigit, Bool.and_eq_true, decide_eq_true_eq]
  exact ⟨h1, h2⟩

theorem mem_cond_singleton {α : Type} {c : Bool} {x y : α}
    (h : y ∈ if c then [x] else ([] : List α)) : c = true ∧ y = x := by
  by_cases hc : c = true
  · simp only [hc, if_true, List.mem_singleton] at h
    exact ⟨hc, h⟩
  · simp [hc] at h

theorem tokAlts_consumed (t : Tok) (cs : List Char)
    (pr : (ParseAcc → ParseAcc) × List Char) (h : pr ∈ tokAlts t cs) :
    ∃ pre, cs = pre ++ pr.2 ∧ pre ≠ [] ∧
      ∀ c ∈ pre,
        (match t with
         | .lit c0 => c = c0
         | .ws => isPyWs c = true
         | _ => c.isDigit = true) := by
  cases t with
  | lit c0 =>
      cases cs with
      | nil => simp [tokAlts] at h
      | cons c1 rest =>
          by_cases hc : c1 = c0
          · simp only [tokAlts, if_pos hc, List.mem_singleton] at h
            subst h
            exact ⟨[c1], rfl, by simp, by simp [hc]⟩
          · simp [tokAlts, hc] at h
  | ws =>
      simp only [tokAlts, List.mem_map, List.mem_reverse, List.mem_range] at h
      obtain ⟨j, hj, hpr⟩ := h
      subst hpr
      have hpos : 0 < (cs.takeWhile isPyWs).length := Nat.lt_of_le_of_lt (Nat.zero_le j) hj
      have hcs : cs ≠ [] := by
        intro hnil
        rw [hnil] at hpos
        simp at hpos
      refine ⟨cs.take (j + 1), (List.take_append_drop _ _).symm, ?_, ?_⟩
      · rw [Ne, List.take_eq_nil_iff]
        push_neg
        exact ⟨by omega, hcs⟩
      · intro c hcm
        have hsub : cs.take (j + 1) = (cs.takeWhile isPyWs).take (j + 1) := by
          have htl : cs.takeWhile isPyWs ++ cs.dropWhile isPyWs = cs :=
            List.takeWhile_append_dropWhile isPyWs cs
          conv =>
            lhs
            rw [← htl]
          rw [List.take_append_eq_append_take]
          have hz : j + 1 - (cs.takeWhile isPyWs).length = 0 := by omega
          rw [hz]
          simp
        rw [hsub] at hcm
        exact List.mem_takeWhile_imp (List.mem_of_mem_take hcm)
  | Y =>
      match cs with
      | [] => simp [tokAlts] at h
      | [c1] => simp [tokAlts] at h
      | [c1, c2] => simp [tokAlts] at h
      | [c1, c2, c3] => simp [tokAlts] at h
      | c1 :: c2 :: c3 :: c4 :: rest =>
          by_cases hd : (c1.isDigit && c2.isDigit && c3.isDigit && c4.isDigit) = true
          · simp only [tokAlts, if_pos hd, List.mem_singleton] at h
            subst h
            rw [Bool.and_eq_true, Bool.and_eq_true, Bool.and_eq_true] at hd
            refine ⟨[c1, c2, c3, c4], rfl, by simp, ?_⟩
            intro c hcm
            have : c = c1 ∨ c = c2 ∨ c = c3 ∨ c = c4 := by simpa using hcm
            rcases this with rfl | rfl | rfl | rfl
            · exact hd.1.1.1
            · exact hd.1.1.2
            · exact hd.1.2
            · exact hd.2
          · simp [tokAlts, hd] at h
  | m =>
      simp only [tokAlts, List.mem_append] at h
      rcases h with h | h
      · match cs, h with
        | [], h => simp at h
        | [c1], h => simp at h
        | c1 :: c2 :: rest, h =>
            rw [List.mem_append] at h
            rcases h with h | h
            · obtain ⟨hc, hpr⟩ := mem_cond_singleton h
              subst hpr
              rw [Bool.and_eq_true, beq_iff_eq] at hc
              refine ⟨[c1, c2], rfl, by simp, ?_⟩
              intro c hcm
              show c.isDigit = true
              rcases (by simpa using hcm : c = c1 ∨ c = c2) with rfl | rfl
              · rw [hc.1]; decide
              · exact isDigit_of_between hc.2 (by decide) (by decide)
            · obtain ⟨hc, hpr⟩ := mem_cond_singleton h
              subst hpr
              rw [Bool.and_eq_true, beq_iff_eq] at hc
              refine ⟨[c1, c2], rfl, by simp, ?_⟩
              intro c hcm
              show c.isDigit = true
              rcases (by simpa using hcm : c = c1 ∨ c = c2) with rfl | rfl
              · rw [hc.1]; decide
              · exact isDigit_of_between hc.2 (by decide) (by decide)
      · match cs, h with
        | [], h => simp at h
        | c1 :: rest, h =>
            obtain ⟨hc, hpr⟩ := mem_cond_singleton h
            subst hpr
            refine ⟨[c1], rfl, by simp, ?_⟩
            intro c hcm
            show c.isDigit = true
            rcases (by simpa using hcm : c = c1) with rfl
            exact isDigit_of_between hc (by decide) (by decide)
  | d =>
      simp only [tokAlts, List.mem_append] at h
      rcases h with h | h
      · match cs, h with
        | [], h => simp at h
        | [c1], h => simp at h
        | c1 :: c2 :: rest, h =>
            rw [List.mem_append, List.mem_append] at h
            rcases h with (h | h) | h
            · obtain ⟨hc, hpr⟩ := mem_cond_singleton h
              subst hpr
              rw [Bool.and_eq_true, beq_iff_eq] at hc
              refine ⟨[c1, c2], rfl, by simp, ?_⟩
              intro c hcm
              show c.isDigit = true
              rcases (by simpa using hcm : c = c1 ∨ c = c2) with rfl | rfl
              · rw [hc.1]; decide
              · rcases (by simpa using hc.2 : c = '0' ∨ c = '1') with rfl | rfl <;> decide
            · obtain ⟨hc, hpr⟩ := mem_cond_singleton h
              subst hpr
              rw [Bool.and_eq_true] at hc
              refine ⟨[c1, c2], rfl, by simp, ?_⟩
              intro c hcm
              show c.isDigit = true
              rcases (by simpa using hcm : c = c1 ∨ c = c2) with rfl | rfl
              · rcases (by simpa using hc.1 : c = '1' ∨ c = '2') with rfl | rfl <;> decide
              · exact hc.2
            · obtain ⟨hc, hpr⟩ := mem_cond_singleton h
              subst hpr
              rw [Bool.and_eq_true, beq_iff_eq] at hc
              refine ⟨[c1, c2], rfl, by simp, ?_⟩
              intro c hcm
              show c.isDigit = true
              rcases (by simpa using hcm : c = c1 ∨ c = c2) with rfl | rfl
              · rw [hc.1]; decide
              · exact isDigit_of_between hc.2 (by decide) (by decide)
      · match cs, h with
        | [], h => simp at h
        | c1 :: rest, h =>
            obtain ⟨hc, hpr⟩ := mem_cond_singleton h
            subst hpr
            refine ⟨[c1], rfl, by simp, ?_⟩
            intro c hcm
            show c.isDigit = true
            rcases (by simpa using hcm : c = c1) with rfl
            exact isDigit_of_between hc (by decide) (by decide)
  | H =>
      simp only [tokAlts, List.mem_append] at h
      rcases h with h | h
      · match cs, h with
        | [], h => simp at h
        | [c1], h => simp at h
        | c1 :: c2 :: rest, h =>
            rw [List.mem_append] at h
            rcases h with h | h
            · obtain ⟨hc, hpr⟩ := mem_cond_singleton h
              subst hpr
              rw [Bool.and_eq_true, beq_iff_eq] at hc
              refine ⟨[c1, c2], rfl, by simp, ?_⟩
              intro c hcm
              show c.isDigit = true
              rcases (by simpa using hcm : c = c1 ∨ c = c2) with rfl | rfl
              · rw [hc.1]; decide
              · exact isDigit_of_between hc.2 (by decide) (by decide)
            · obtain ⟨hc, hpr⟩ := mem_cond_singleton h
              subst hpr
              rw [Bool.and_eq_true] at hc
              refine ⟨[c1, c2], rfl, by simp, ?_⟩
              intro c hcm
              show c.isDigit = true
              rcases (by simpa using hcm : c = c1 ∨ c = c2) with rfl | rfl
              · rcases (by simpa using hc.1 : c = '0' ∨ c = '1') with rfl | rfl <;> decide
              · exact hc.2
      · match cs, h with
        | [], h => simp at h
        | c1 :: rest, h =>
            obtain ⟨hc, hpr⟩ := mem_cond_singleton h
            subst hpr
            refine ⟨[c1], rfl, by simp, ?_⟩
            intro c hcm
            show c.isDigit = true
            rcases (by simpa using hcm : c = c1) with rfl
            exact hc
  | M =>
      simp only [tokAlts, List.mem_append] at h
      rcases h with h | h
      · match cs, h with
        | [], h => simp at h
        | [c1], h => simp at h
        | c1 :: c2 :: rest, h =>
            obtain ⟨hc, hpr⟩ := mem_cond_singleton h
            subst hpr
            rw [Bool.and_eq_true] at hc
            refine ⟨[c1, c2], rfl, by simp, ?_⟩
            intro c hcm
            show c.isDigit = true
            rcases (by simpa using hcm : c = c1 ∨ c = c2) with rfl | rfl
            · exact isDigit_of_between hc.1 (by decide) (by decide)
            · exact hc.2
      · match cs, h with
        | [], h => simp at h
        | c1 :: rest, h =>
            obtain ⟨hc, hpr⟩ := mem_cond_singleton h
            subst hpr
            refine ⟨[c1], rfl, by simp, ?_⟩
            intro c hcm
            show c.isDigit = true
            rcases (by simpa using hcm : c = c1) with rfl
            exact hc
  | S =>
      simp only [tokAlts, List.mem_append] at h
      rcases h with h | h
      · match cs, h with
        | [], h => simp at h
        | [c1], h => simp at h
        | c1 :: c2 :: rest, h =>
            rw [List.mem_append] at h
            rcases h with h | h
            · obtain ⟨hc, hpr⟩ := mem_cond_singleton h
              subst hpr
              rw [Bool.and_eq_true, beq_iff_eq] at hc
              refine ⟨[c1, c2], rfl, by simp, ?_⟩
              intro c hcm
              show c.isDigit = true
              rcases (by simpa using hcm : c = c1 ∨ c = c2) with rfl | rfl
              · rw [hc.1]; decide
              · rcases (by simpa using hc.2 : c = '0' ∨ c = '1') with rfl | rfl <;> decide
            · obtain ⟨hc, hpr⟩ := mem_cond_singleton h
              subst hpr
              rw [Bool.and_eq_true] at hc
              refine ⟨[c1, c2], rfl, by simp, ?_⟩
              intro c hcm
              show c.isDigit = true
              rcases (by simpa using hcm : c = c1 ∨ c = c2) with rfl | rfl
              · exact isDigit_of_between hc.1 (by decide) (by decide)
              · exact hc.2
      · match cs, h with
        | [], h => simp at h
        | c1 :: rest, h =>
            obtain ⟨hc, hpr⟩ := mem_cond_singleton h
            subst hpr
            refine ⟨[c1], rfl, by simp, ?_⟩
            intro c hcm
            show c.isDigit = true
            rcases (by simpa using hcm : c = c1) with rfl
            exact hc

theorem runToks_cons (t : Tok) (ts : List Tok) (cs : List Char) (acc : ParseAcc) :
    runToks (t :: ts) cs acc =
      (tokAlts t cs).findSome? (fun pr => runToks ts pr.2 (pr.1 acc)) := rfl

theorem runToks_nil_eq (cs : List Char) (acc : ParseAcc) :
    runToks [] cs acc = if cs = [] then some acc else none := rfl

theorem runToks_no_null (toks : List Tok)
    (hlit : ∀ c0, Tok.lit c0 ∈ toks → c0 ≠ '\x00') :
    ∀ cs acc r, runToks toks cs acc = some r → ∀ c ∈ cs, c ≠ '\x00' := by
  induction toks with
  | nil =>
      intro cs acc r hr c hc
      rw [runToks_nil_eq] at hr
      by_cases hcs : cs = []
      · subst hcs
        simp at hc
      · rw [if_neg hcs] at hr
        cases hr
  | cons t ts ih =>
      intro cs acc r hr c hc
      rw [runToks_cons] at hr
      obtain ⟨pr, hmem, hrun⟩ := List.exists_of_findSome?_eq_some hr
      obtain ⟨pre, hcs2, hne, hch⟩ := tokAlts_consumed t cs pr hmem
      subst hcs2
      rcases List.mem_append.1 hc with hcp | hcs3
      · have hok := hch c hcp
        cases t with
        | lit c0 =>
            have hc0 : c = c0 := hok
            rw [hc0]
            exact hlit c0 (List.mem_cons_self _ _)
        | ws =>
            have hwc : isPyWs c = true := hok
            rintro rfl
            exact absurd hwc (by decide)
        | Y => exact not_null_of_digit hok
        | m => exact not_null_of_digit hok
        | d => exact not_null_of_digit hok
        | H => exact not_null_of_digit hok
        | M => exact not_null_of_digit hok
        | S => exact not_null_of_digit hok
      · exact ih (fun c0 hm => hlit c0 (List.mem_cons_of_mem _ hm)) pr.2 _ r hrun c hcs3

theorem runToks_canonical_head (cs : List Char) (acc r : ParseAcc)
    (h : runToks fmtCanonical cs acc = some r) :
    ∃ c1 rest, cs = c1 :: rest ∧ c1.isDigit = true := by
  rw [fmtCanonical, runToks_cons] at h
  obtain ⟨pr, hmem, -⟩ := List.exists_of_findSome?_eq_some h
  match cs, hmem with
  | [], hm => simp [tokAlts] at hm
  | [c1], hm => simp [tokAlts] at hm
  | [c1, c2], hm => simp [tokAlts] at hm
  | [c1, c2, c3], hm => simp [tokAlts] at hm
  | c1 :: c2 :: c3 :: c4 :: rest, hm =>
      by_cases hd : (c1.isDigit && c2.isDigit && c3.isDigit && c4.isDigit) = true
      · refine ⟨c1, _, rfl, ?_⟩
        rw [Bool.and_eq_true, Bool.and_eq_true, Bool.and_eq_true] at hd
        exact hd.1.1.1
      · simp [tokAlts, hd] at hm

theorem runToks_ends_digit (ts : List Tok) :
    ∀ cs acc r, runToks (ts ++ [Tok.S]) cs acc = some r →
      ∃ hne : cs ≠ [], (cs.getLast hne).isDigit = true := by
  induction ts with
  | nil =>
      intro cs acc r h
      rw [List.nil_append, runToks_cons] at h
      obtain ⟨pr, hmem, hrun⟩ := List.exists_of_findSome?_eq_some h
      rw [runToks_nil_eq] at hrun
      by_cases hp2 : pr.2 = []
      · obtain ⟨pre, hcs, hne, hch⟩ := tokAlts_consumed _ _ _ hmem
        subst hcs
        rw [hp2, List.append_nil]
        exact ⟨hne, hch _ (List.getLast_mem hne)⟩
      · rw [if_neg hp2] at hrun
        cases hrun
  | cons t ts ih =>
      intro cs acc r h
      rw [List.cons_append, runToks_cons] at h
      obtain ⟨pr, hmem, hrun⟩ := List.exists_of_findSome?_eq_some h
      obtain ⟨hne2, hd⟩ := ih pr.2 _ r hrun
      obtain ⟨pre, hcs, hne, hch⟩ := tokAlts_consumed _ _ _ hmem
      subst hcs
      have hne3 : pre ++ pr.2 ≠ [] := by simp [hne2]
      refine ⟨hne3, ?_⟩
      rw [List.getLast_append_of_ne_nil hne2]
      exact hd

theorem clean_id_of_canonical (cs : List Char) (acc r : ParseAcc)
    (h : runToks fmtCanonical cs acc = some r) : cleanDateChars cs = cs := by
  have hnn : ∀ c ∈ cs, c ≠ '\x00' := by
    refine runToks_no_null fmtCanonical ?_ cs acc r h
    intro c0 hm
    have hc0 : c0 = ':' := by simpa [fmtCanonical] using hm
    rw [hc0]
    decide
  have hfilter : cs.filter (fun c => c ≠ '\x00') = cs := by
    apply List.filter_eq_self.2
    intro a ha
    exact decide_eq_true (hnn a ha)
  obtain ⟨c1, rest, hcs1, hd1⟩ := runToks_canonical_head cs acc r h
  have hsplit : runToks
      ([Tok.Y, .lit ':', .m, .lit ':', .d, .ws, .H, .lit ':', .M, .lit ':'] ++ [Tok.S])
      cs acc = some r := h
  obtain ⟨hne, hdl⟩ := runToks_ends_digit _ cs acc r hsplit
  rw [cleanDateChars, hfilter, stripChars]
  have hdw : cs.dropWhile isPyWs = cs := by
    rw [hcs1, List.dropWhile_cons, not_ws_of_digit hd1]
    simp
  rw [hdw]
  rcases List.eq_nil_or_concat cs with hcn | ⟨L, b, hLb⟩
  · exact absurd hcn hne
  · subst hLb
    have hb : b.isDigit = true := by
      have hgl : (L.concat b).getLast hne = b := by
        simp [List.concat_eq_append]
      rw [← hgl]
      exact hdl
    rw [List.concat_eq_append, List.reverse_append]
    simp only [List.reverse_cons, List.reverse_nil, List.nil_append, List.singleton_append]
    rw [List.dropWhile_cons, not_ws_of_digit hb]
    simp

theorem strptime_canonical_clean (s : String) (dt : DateTime)
    (h : strptimeFmt fmtCanonical s = some dt) :
    try_parse_date (.str s) = some dt := by
  rw [strptimeFmt] at h
  obtain ⟨a, hrun, hmk⟩ := Option.bind_eq_some.1 h
  have hclean : cleanDateChars s.data = s.data := clean_id_of_canonical _ _ _ hrun
  have hsne : s ≠ "" := by
    obtain ⟨c1, rest, hcs, -⟩ := runToks_canonical_head _ _ _ hrun
    intro he
    rw [he] at hcs
    cases hcs
  rw [try_parse_date, if_neg hsne, date_formats]
  have hstr : String.mk (cleanDateChars s.data) = s := by
    rw [hclean]
  rw [List.findSome?_cons]
  have hfirst : strptimeFmt fmtCanonical (String.mk (cleanDateChars s.data)) = some dt := by
    rw [hstr, strptimeFmt, hrun]
    exact hmk
  rw [hfirst]

/-- C6: `try_parse_date` returns `none` for non-text input; otherwise it
removes embedded null characters, strips surrounding whitespace, and
tries the five formats `YYYY:MM:DD HH:MM:SS`, `YYYY-MM-DD HH:MM:SS`,
`YYYYMMDD_HHMMSS`, `YYYY_MM_DD HH:MM:SS`, `YYYYMMDDHHMMSS` exactly in
that order, returning the first success (the `Option.orElse` chain below
spells out that order); `"2023:05:01 10:20:30"` parses to the date-time
2023-05-01 10:20:30 and `"not a date"` yields `none`. -/
theorem claim_C6_parse_capture_date :
    (∀ v : RawValue, v.isStr = false → try_parse_date v = none) ∧
    (∀ s : String, s ≠ "" → try_parse_date (.str s) =
        Option.orElse (strptimeFmt fmtCanonical (String.mk (cleanDateChars s.data)))
          (fun _ => Option.orElse (strptimeFmt fmtDash (String.mk (cleanDateChars s.data)))
            (fun _ => Option.orElse (strptimeFmt fmtCompact (String.mk (cleanDateChars s.data)))
              (fun _ => Option.orElse
                (strptimeFmt fmtUnderscore (String.mk (cleanDateChars s.data)))
                (fun _ => strptimeFmt fmtDigits (String.mk (cleanDateChars s.data))))))) ∧
    try_parse_date (.str "2023:05:01 10:20:30") = some ⟨2023, 5, 1, 10, 20, 30⟩ ∧
    try_parse_date (.str "not a date") = none := by
  refine ⟨?_, ?_, by decide, by decide⟩
  · intro v hv
    cases v with
    | str s => exact absurd hv (by simp [RawValue.isStr])
    | num a => rfl
    | pair a b => rfl
    | list xs => rfl
    | other => rfl
  · intro s hs
    rw [try_parse_date, if_neg hs, date_formats]
    cases h1 : strptimeFmt fmtCanonical (String.mk (cleanDateChars s.data)) <;>
      cases h2 : strptimeFmt fmtDash (String.mk (cleanDateChars s.data)) <;>
        cases h3 : strptimeFmt fmtCompact (String.mk (cleanDateChars s.data)) <;>
          cases h4 : strptimeFmt fmtUnderscore (String.mk (cleanDateChars s.data)) <;>
            cases h5 : strptimeFmt fmtDigits (String.mk (cleanDateChars s.data)) <;>
              simp [List.findSome?_cons, List.findSome?_nil, h1, h2, h3, h4, h5,
                Option.orElse]

/-- C6 witness: the non-text clause and the format-chain clause applied
at concrete inputs. -/
theorem claim_C6_witness :
    try_parse_date (.num (.pint 5)) = none ∧
    try_parse_date (.str "20230501_102030") =
      Option.orElse
        (strptimeFmt fmtCanonical (String.mk (cleanDateChars "20230501_102030".data)))
        (fun _ => Option.orElse
          (strptimeFmt fmtDash (String.mk (cleanDateChars "20230501_102030".data)))
          (fun _ => Option.orElse
            (strptimeFmt fmtCompact (String.mk (cleanDateChars "20230501_102030".data)))
            (fun _ => Option.orElse
              (strptimeFmt fmtUnderscore (String.mk (cleanDateChars "20230501_102030".data)))
              (fun _ => strptimeFmt fmtDigits
                (String.mk (cleanDateChars "20230501_102030".data)))))) :=
  ⟨claim_C6_parse_capture_date.1 (.num (.pint 5)) rfl,
   claim_C6_parse_capture_date.2.1 "20230501_102030" (by decide)⟩

/-- C2: a normalized ISO / aperture / shutter-speed value reaches the
hour-`h` bucket exactly when the record's raw date value strict-parses
under the canonical format `YYYY:MM:DD HH:MM:SS` with hour `h` (first
conjunct, stated as an append equation whose appended segment spells out
that condition); the strict condition implies the lenient fallback chain
succeeds with the same date-time, so it is strictly stronger (second
conjunct); and a record whose date parses only under a fallback format
still increments the daily and hourly counters while leaving every
bucket untouched (third conjunct). -/
theorem claim_C2_strict_bucket_rule :
    (∀ r : Record, ∀ st s2 : AggState, stepRecord st r = some s2 → ∀ h : ℕ,
      (s2.hourly h).isos = (st.hourly h).isos ++
        (match ciso r, rget r "DateTimeOriginal" with
         | some v, some (.str ds) =>
             (match strptimeFmt fmtCanonical ds with
              | some dt => if dt.hour = h then [v] else []
              | none => [])
         | _, _ => []) ∧
      (s2.hourly h).apertures = (st.hourly h).apertures ++
        (match cap r, rget r "DateTimeOriginal" with
         | some v, some (.str ds) =>
             (match strptimeFmt fmtCanonical ds with
              | some dt => if dt.hour = h then [v] else []
              | none => [])
         | _, _ => []) ∧
      (s2.hourly h).shutter_speeds = (st.hourly h).shutter_speeds ++
        (match csh r, rget r "DateTimeOriginal" with
         | some v, some (.str ds) =>
             (match strptimeFmt fmtCanonical ds with
              | some dt => if dt.hour = h then [v] else []
              | none => [])
         | _, _ => [])) ∧
    (∀ s : String, ∀ dt : DateTime, strptimeFmt fmtCanonical s = some dt →
        try_parse_date (.str s) = some dt) ∧
    (∀ r : Record, ∀ st s2 : AggState, ∀ dt : DateTime, stepRecord st r = some s2 →
        cdt r = some dt →
        (∀ ds : String, rget r "DateTimeOriginal" = some (.str ds) →
            strptimeFmt fmtCanonical ds = none) →
        alget s2.dates dt.date = alget st.dates dt.date + 1 ∧
        alget s2.hours dt.hour = alget st.hours dt.hour + 1 ∧
        ∀ h : ℕ, s2.hourly h = st.hourly h) := by
  refine ⟨?_, ?_, ?_⟩
  · intro r st s2 hstep h
    rw [stepRecord_eq] at hstep
    by_cases hcr : crashes r = true
    · rw [if_pos hcr] at hstep
      cases hstep
    · rw [if_neg hcr] at hstep
      cases hstep
      refine ⟨?_, ?_, ?_⟩
      · simp only [applyContrib]
        congr 1
        rw [cbIso]
        cases hco : ciso r with
        | none =>
            cases hg : rget r "DateTimeOriginal" with
            | none => cases hs : strictHour r <;> simp [atHour]
            | some rv => cases hs : strictHour r <;> cases rv <;> simp [atHour]
        | some v =>
            rw [strictHour]
            cases hg : rget r "DateTimeOriginal" with
            | none => simp [atHour]
            | some rv =>
                cases rv with
                | str ds =>
                    cases hp : strptimeFmt fmtCanonical ds with
                    | none => simp [atHour, hp]
                    | some dt => by_cases hh : dt.hour = h <;> simp [atHour, hp, hh]
                | num a => simp [atHour]
                | pair a b => simp [atHour]
                | list xs => simp [atHour]
                | other => simp [atHour]
      · simp only [applyContrib]
        congr 1
        rw [cbAp]
        cases hco : cap r with
        | none =>
            cases hg : rget r "DateTimeOriginal" with
            | none => cases hs : strictHour r <;> simp [atHour]
            | some rv => cases hs : strictHour r <;> cases rv <;> simp [atHour]
        | some v =>
            rw [strictHour]
            cases hg : rget r "DateTimeOriginal" with
            | none => simp [atHour]
            | some rv =>
                cases rv with
                | str ds =>
                    cases hp : strptimeFmt fmtCanonical ds with
                    | none => simp [atHour, hp]
                    | some dt => by_cases hh : dt.hour = h <;> simp [atHour, hp, hh]
                | num a => simp [atHour]
                | pair a b => simp [atHour]
                | list xs => simp [atHour]
                | other => simp [atHour]
      · simp only [applyContrib]
        congr 1
        rw [cbSh]
        cases hco : csh r with
        | none =>
            cases hg : rget r "DateTimeOriginal" with
            | none => cases hs : strictHour r <;> simp [atHour]
            | some rv => cases hs : strictHour r <;> cases rv <;> simp [atHour]
        | some v =>
            rw [strictHour]
            cases hg : rget r "DateTimeOriginal" with
            | none => simp [atHour]
            | some rv =>
                cases rv with
                | str ds =>
                    cases hp : strptimeFmt fmtCanonical ds with
                    | none => simp [atHour, hp]
                    | some dt => by_cases hh : dt.hour = h <;> simp [atHour, hp, hh]
                | num a => simp [atHour]
                | pair a b => simp [atHour]
                | list xs => simp [atHour]
                | other => simp [atHour]
  · exact fun s dt h => strptime_canonical_clean s dt h
  · intro r st s2 dt hstep hdt hnostrict
    rw [stepRecord_eq] at hstep
    by_cases hcr : crashes r = true
    · rw [if_pos hcr] at hstep
      cases hstep
    · rw [if_neg hcr] at hstep
      cases hstep
      have hsh : strictHour r = .skip := by
        rw [cdt] at hdt
        by_cases he : r.isEmpty
        · rw [if_pos he] at hdt
          cases hdt
        · rw [if_neg he] at hdt
          obtain ⟨rv, hg, hparse⟩ := Option.bind_eq_some.1 hdt
          cases rv with
          | str ds => simp [strictHour, hg, hnostrict ds hg]
          | num a => simp [try_parse_date] at hparse
          | pair a b => simp [try_parse_date] at hparse
          | list xs => simp [try_parse_date] at hparse
          | other => simp [try_parse_date] at hparse
      have hb1 : cbIso r = none := by
        rw [cbIso, hsh]
        cases ciso r <;> rfl
      have hb2 : cbAp r = none := by
        rw [cbAp, hsh]
        cases cap r <;> rfl
      have hb3 : cbSh r = none := by
        rw [cbSh, hsh]
        cases csh r <;> rfl
      have hcd : cdate r = some dt.date := by rw [cdate, hdt]; rfl
      have hch : chour r = some dt.hour := by rw [chour, hdt]; rfl
      refine ⟨?_, ?_, ?_⟩
      · simp only [applyContrib, hcd, bumpOpt, alget_bump]
        simp
      · simp only [applyContrib, hch, bumpOpt, alget_bump]
        simp
      · intro h
        simp only [applyContrib, hb1, hb2, hb3]
        refine (HourBucket.ext ?_ ?_ ?_).symm <;> simp [atHour]

/-- C2 witness: the bucket-membership clause applied to one concrete
record that carries an ISO value and a strictly formatted date. -/
theorem claim_C2_witness :
    ∃ s2 : AggState,
      stepRecord initState
        [("ISOSpeedRatings", RawValue.num (.pint 200)),
         ("DateTimeOriginal", RawValue.str "2023:05:01 10:20:30")] = some s2 ∧
      (s2.hourly 10).isos = (initState.hourly 10).isos ++ [200] := by
  refine ⟨_, rfl, ?_⟩
  have h := (claim_C2_strict_bucket_rule.1
    [("ISOSpeedRatings", RawValue.num (.pint 200)),
     ("DateTimeOriginal", RawValue.str "2023:05:01 10:20:30")]
    initState _ rfl 10).1
  rw [h]
  rfl

theorem length_filterMap_eq_length_filter {α β : Type} (f : α → Option β) (l : List α) :
    (l.filterMap f).length = (l.filter (fun a => (f a).isSome)).length := by
  induction l with
  | nil => rfl
  | cons a l ih =>
      cases h : f a <;> simp [List.filterMap_cons, List.filter_cons, h, ih]

/-- C7: after a (non-aborting) run, `total_photos` is the sum of the
counts of the date-keyed counter, which equals the number of records
whose capture date parses under the fallback chain (records whose date
fails the chain contribute nothing, even when their other fields were
counted); and `daily_average` is `total_photos` divided by the number of
distinct dates appearing as keys, or 0 when there are none. -/
theorem claim_C7_summary_statistics :
    ∀ rs : List Record, ∀ s : AggState, process_folder rs = some s →
      total_photos s.dates = sumValues s.dates ∧
      total_photos s.dates = (rs.filter (fun r => (cdt r).isSome)).length ∧
      ((s.dates.map Prod.fst).toFinset.card = 0 → daily_average s.dates = 0) ∧
      ((s.dates.map Prod.fst).toFinset.card ≠ 0 →
        daily_average s.dates =
          (total_photos s.dates : ℚ) / ((s.dates.map Prod.fst).toFinset.card : ℚ)) := by
  intro rs s h
  obtain ⟨hs, -⟩ := process_folder_some rs s h
  subst hs
  have hdates : (foldContribs rs initState).dates = (rs.filterMap cdate).foldl bump [] := by
    rw [foldContribs_dates]
    rfl
  have hlen : (foldContribs rs initState).dates.length =
      ((foldContribs rs initState).dates.map Prod.fst).toFinset.card := by
    rw [hdates, length_foldl_bump _ _ (by simp), keys_toFinset_foldl]
  refine ⟨rfl, ?_, ?_, ?_⟩
  · rw [total_photos, hdates, sumValues_foldl]
    have h0 : sumValues ([] : List (Date × ℕ)) = 0 := rfl
    rw [h0, Nat.zero_add, length_filterMap_eq_length_filter]
    congr 1
    apply List.filter_congr
    intro r hr
    simp [cdate]
  · intro hz
    have hl0 : (foldContribs rs initState).dates.length = 0 := hlen.trans hz
    rw [daily_average, if_neg (by omega)]
  · intro hnz
    have hpos : 0 < (foldContribs rs initState).dates.length := by
      rw [hlen]
      exact Nat.pos_of_ne_zero hnz
    rw [daily_average, if_pos hpos, hlen]

/-- C7 witness: a run over three records, two with parseable dates and
one whose date value does not parse, applied to the record-count
clause. -/
theorem claim_C7_witness :
    process_folder
      [[("DateTimeOriginal", RawValue.str "2023:05:01 10:20:30")],
       [("DateTimeOriginal", RawValue.str "2023:05:02 11:00:00")],
       [("DateTimeOriginal", RawValue.num (.pint 7))]] =
      some (AggState.mk [] [(Date.mk 2023 5 1, 1), (Date.mk 2023 5 2, 1)]
        [(10, 1), (11, 1)] [] [] [] (fun _ => initBucket)) ∧
    total_photos (AggState.mk [] [(Date.mk 2023 5 1, 1), (Date.mk 2023 5 2, 1)]
        [(10, 1), (11, 1)] [] [] [] (fun _ => initBucket)).dates = 2 := by
  constructor
  · rfl
  · have h := (claim_C7_summary_statistics
      [[("DateTimeOriginal", RawValue.str "2023:05:01 10:20:30")],
       [("DateTimeOriginal", RawValue.str "2023:05:02 11:00:00")],
       [("DateTimeOriginal", RawValue.num (.pint 7))]]
      (AggState.mk [] [(Date.mk 2023 5 1, 1), (Date.mk 2023 5 2, 1)]
        [(10, 1), (11, 1)] [] [] [] (fun _ => initBucket)) (by rfl)).2.1
    rw [h]
    decide

/-- C8: `focal_length_median` filters the samples to non-zero values,
sorts ascending, and returns the middle element for an odd count, the
mean of the two middle elements for an even count, and 0 for an empty
filtered list; in particular the median of `[24, 35, 50]` is 35, of
`[24, 35]` is 29.5 (= 59/2) and of `[]` is 0. -/
theorem claim_C8_median :
    (∀ fl l2 : List ℤ, l2.Perm (fl.filter (fun f => decide (f ≠ 0))) →
        l2.Sorted (· ≤ ·) →
        focal_length_median fl =
          if l2.length = 0 then 0
          else if l2.length % 2 = 0 then
            ((l2.getD (l2.length / 2 - 1) 0 : ℚ) + (l2.getD (l2.length / 2) 0 : ℚ)) / 2
          else (l2.getD (l2.length / 2) 0 : ℚ)) ∧
    focal_length_median [24, 35, 50] = 35 ∧
    focal_length_median [24, 35] = 59 / 2 ∧
    focal_length_median [] = 0 := by
  refine ⟨?_, ?_, ?_, ?_⟩
  · intro fl l2 hperm hsort
    have hins : l2 = (fl.filter (fun f => decide (f ≠ 0))).insertionSort (· ≤ ·) :=
      List.eq_of_perm_of_sorted
        (hperm.trans (List.perm_insertionSort _ _).symm) hsort
        (List.sorted_insertionSort _ _)
    subst hins
    have hlen : ((fl.filter (fun f => decide (f ≠ 0))).insertionSort (· ≤ ·)).length =
        (fl.filter (fun f => decide (f ≠ 0))).length :=
      (List.perm_insertionSort _ _).length_eq
    simp only [focal_length_median, hlen]
  · norm_num [focal_length_median, List.filter, List.insertionSort, List.orderedInsert]
  · norm_num [focal_length_median, List.filter, List.insertionSort, List.orderedInsert]
  · norm_num [focal_length_median, List.filter]

/-- C8 witness: the sorted-characterization clause applied at
`[24, 35, 50]` with its own sorted permutation. -/
theorem claim_C8_witness :
    focal_length_median [24, 35, 50] =
      if ([24, 35, 50] : List ℤ).length = 0 then 0
      else if ([24, 35, 50] : List ℤ).length % 2 = 0 then
        ((([24, 35, 50] : List ℤ).getD (([24, 35, 50] : List ℤ).length / 2 - 1) 0 : ℚ) +
          (([24, 35, 50] : List ℤ).getD (([24, 35, 50] : List ℤ).length / 2) 0 : ℚ)) / 2
      else (([24, 35, 50] : List ℤ).getD (([24, 35, 50] : List ℤ).length / 2) 0 : ℚ) :=
  claim_C8_median.1 [24, 35, 50] [24, 35, 50] (by decide) (by decide)

theorem perm_any {α : Type} (p : α → Bool) {l1 l2 : List α} (h : l1.Perm l2) :
    l1.any p = l2.any p := by
  rw [List.any_eq, List.any_eq]
  simp only [h.mem_iff]

theorem median_perm {l1 l2 : List ℤ} (h : l1.Perm l2) :
    focal_length_median l1 = focal_length_median l2 := by
  have hperm : (l1.filter (fun f => decide (f ≠ 0))).Perm
      (l2.filter (fun f => decide (f ≠ 0))) := h.filter _
  have hsortEq : (l1.filter (fun f => decide (f ≠ 0))).insertionSort (· ≤ ·) =
      (l2.filter (fun f => decide (f ≠ 0))).insertionSort (· ≤ ·) :=
    List.eq_of_perm_of_sorted
      ((List.perm_insertionSort _ _).trans (hperm.trans (List.perm_insertionSort _ _).symm))
      (List.sorted_insertionSort _ _) (List.sorted_insertionSort _ _)
  simp only [focal_length_median, hperm.length_eq, hsortEq]

/-- C1: aggregation is order-independent.  For any two permutations of
the record sequence, either both runs die on the uncaught `TypeError` or
both succeed; and on success the date, hour, ISO, aperture and
shutter-speed counters agree on every key, the hourly buckets agree up
to order within each bucket, the focal-length samples agree up to order,
and `totalPhotos`, `focalLengthMedian` and `dailyAverage` are
identical. -/
theorem claim_C1_order_independence :
    ∀ l1 l2 : List Record, l1.Perm l2 →
      (process_folder l1 = none ↔ process_folder l2 = none) ∧
      ∀ s1 s2 : AggState, process_folder l1 = some s1 → process_folder l2 = some s2 →
        (∀ d : Date, alget s1.dates d = alget s2.dates d) ∧
        (∀ h : ℕ, alget s1.hours h = alget s2.hours h) ∧
        (∀ v : ℤ, alget s1.iso v = alget s2.iso v) ∧
        (∀ v : ℚ, alget s1.apertures v = alget s2.apertures v) ∧
        (∀ v : ℚ, alget s1.shutter_speeds v = alget s2.shutter_speeds v) ∧
        (∀ h : ℕ, ((s1.hourly h).isos).Perm ((s2.hourly h).isos) ∧
          ((s1.hourly h).apertures).Perm ((s2.hourly h).apertures) ∧
          ((s1.hourly h).shutter_speeds).Perm ((s2.hourly h).shutter_speeds)) ∧
        s1.focal_lengths.Perm s2.focal_lengths ∧
        total_photos s1.dates = total_photos s2.dates ∧
        focal_length_median s1.focal_lengths = focal_length_median s2.focal_lengths ∧
        daily_average s1.dates = daily_average s2.dates := by
  intro l1 l2 hp
  have hany : l1.any crashes = l2.any crashes := perm_any crashes hp
  constructor
  · rw [process_folder, processRecords_eq, process_folder, processRecords_eq, hany]
    by_cases hc : l2.any crashes = true
    · rw [if_pos hc, if_pos hc]
    · rw [if_neg hc, if_neg hc]
      simp
  · intro s1 s2 h1 h2
    obtain ⟨hs1, -⟩ := process_folder_some l1 s1 h1
    obtain ⟨hs2, -⟩ := process_folder_some l2 s2 h2
    subst hs1
    subst hs2
    have hfocal : (foldContribs l1 initState).focal_lengths.Perm
        (foldContribs l2 initState).focal_lengths := by
      rw [foldContribs_focal, foldContribs_focal]
      simp only [initState, List.nil_append]
      exact hp.filterMap cfocal
    have hlen12 : (foldContribs l1 initState).dates.length =
        (foldContribs l2 initState).dates.length := by
      rw [foldContribs_dates, foldContribs_dates]
      simp only [initState]
      rw [length_foldl_bump _ _ (by simp), length_foldl_bump _ _ (by simp)]
      rw [List.toFinset_eq_of_perm _ _ (hp.filterMap cdate)]
    have htot : total_photos (foldContribs l1 initState).dates =
        total_photos (foldContribs l2 initState).dates := by
      rw [total_photos, total_photos, foldContribs_dates, foldContribs_dates]
      simp only [initState]
      rw [sumValues_foldl, sumValues_foldl, (hp.filterMap cdate).length_eq]
    refine ⟨?_, ?_, ?_, ?_, ?_, ?_, hfocal, htot, median_perm hfocal, ?_⟩
    · intro d
      rw [foldContribs_dates, foldContribs_dates]
      simp only [initState]
      rw [alget_foldl, alget_foldl, (hp.filterMap cdate).count_eq]
    · intro h
      rw [foldContribs_hours, foldContribs_hours]
      simp only [initState]
      rw [alget_foldl, alget_foldl, (hp.filterMap chour).count_eq]
    · intro v
      rw [foldContribs_iso, foldContribs_iso]
      simp only [initState]
      rw [alget_foldl, alget_foldl, (hp.filterMap ciso).count_eq]
    · intro v
      rw [foldContribs_apertures, foldContribs_apertures]
      simp only [initState]
      rw [alget_foldl, alget_foldl, (hp.filterMap cap).count_eq]
    · intro v
      rw [foldContribs_shutter, foldContribs_shutter]
      simp only [initState]
      rw [alget_foldl, alget_foldl, (hp.filterMap csh).count_eq]
    · intro h
      refine ⟨?_, ?_, ?_⟩
      · rw [foldContribs_hourly_isos, foldContribs_hourly_isos]
        simp only [initState, initBucket, List.nil_append]
        exact (hp.filterMap cbIso).filterMap _
      · rw [foldContribs_hourly_aps, foldContribs_hourly_aps]
        simp only [initState, initBucket, List.nil_append]
        exact (hp.filterMap cbAp).filterMap _
      · rw [foldContribs_hourly_shs, foldContribs_hourly_shs]
        simp only [initState, initBucket, List.nil_append]
        exact (hp.filterMap cbSh).filterMap _
    · rw [daily_average, daily_average, hlen12, htot]

/-- C1 witness: the crash-agreement clause applied to a two-record batch
and its transposition. -/
theorem claim_C1_witness :
    process_folder
        [[("ISOSpeedRatings", RawValue.num (.pint 200))],
         [("DateTimeOriginal", RawValue.str "2023:05:01 10:20:30")]] = none ↔
      process_folder
        [[("DateTimeOriginal", RawValue.str "2023:05:01 10:20:30")],
         [("ISOSpeedRatings", RawValue.num (.pint 200))]] = none :=
  (claim_C1_order_independence
    [[("ISOSpeedRatings", RawValue.num (.pint 200))],
     [("DateTimeOriginal", RawValue.str "2023:05:01 10:20:30")]]
    [[("DateTimeOriginal", RawValue.str "2023:05:01 10:20:30")],
     [("ISOSpeedRatings", RawValue.num (.pint 200))]]
    (by decide)).1

theorem sum_map_add {α : Type} (l : List α) (f g : α → ℕ) :
    (l.map (fun a => f a + g a)).sum = (l.map f).sum + (l.map g).sum := by
  induction l with
  | nil => rfl
  | cons a l ih => simp [ih]; omega

theorem sum_indicator_range (n k : ℕ) :
    ((List.range n).map (fun i => if k = i then 1 else 0)).sum = if k < n then 1 else 0 := by
  induction n with
  | zero => simp
  | succ n ih =>
      rw [List.range_succ, List.map_append, List.sum_append, ih]
      by_cases h : k = n
      · subst h
        simp
      · by_cases h2 : k < n
        · have h3 : k < n + 1 := by omega
          simp [h, h2, h3]
        · have h3 : ¬k < n + 1 := by omega
          simp [h, h2, h3]

theorem histBinIndex_lt (lo hi x : ℚ) : histBinIndex lo hi x < 20 := by
  rw [histBinIndex]
  omega

theorem sum_histCount_range (lo hi : ℚ) (data : List ℚ) :
    ((List.range 20).map (fun i => histCount lo hi data i)).sum = data.length := by
  induction data with
  | nil => simp [histCount]
  | cons x d ih =>
      have hstep : ∀ i, histCount lo hi (x :: d) i =
          (if histBinIndex lo hi x = i then 1 else 0) + histCount lo hi d i := by
        intro i
        rw [histCount, histCount, List.filter_cons]
        by_cases h : histBinIndex lo hi x = i
        · simp [h]
          omega
        · simp [h]
      simp only [hstep]
      rw [sum_map_add, sum_indicator_range, ih, if_pos (histBinIndex_lt lo hi x)]
      simp [Nat.add_comm]

theorem splitWalk_spec (half : ℚ) :
    ∀ (l : List (ℕ × ℚ × ℚ)) (c : ℚ) (j : ℕ) (hj : j < l.length),
      (∀ i : ℕ, i < j → c + (((l.take (i + 1)).map (fun t => (t.1 : ℚ))).sum) < half) →
      half ≤ c + (((l.take (j + 1)).map (fun t => (t.1 : ℚ))).sum) →
      splitWalk half c l = some
        ((l.get ⟨j, hj⟩).2.1 +
          ((half - (c + (((l.take j).map (fun t => (t.1 : ℚ))).sum))) /
            ((l.get ⟨j, hj⟩).1 : ℚ)) *
          ((l.get ⟨j, hj⟩).2.2 - (l.get ⟨j, hj⟩).2.1)) := by
  intro l
  induction l with
  | nil =>
      intro c j hj
      simp at hj
  | cons t rest ih =>
      intro c j hj hlt hge
      obtain ⟨cnt, le, re⟩ := t
      cases j with
      | zero =>
          have hge0 : half ≤ c + (cnt : ℚ) := by
            rw [List.take_succ_cons, List.take_zero] at hge
            simpa using hge
          rw [splitWalk, if_pos hge0]
          simp
      | succ j =>
          have h0 : c + (cnt : ℚ) < half := by
            have := hlt 0 (Nat.succ_pos j)
            rw [List.take_succ_cons, List.take_zero] at this
            simpa using this
          rw [splitWalk, if_neg (not_le.2 h0)]
          have hj' : j < rest.length := by simpa using hj
          have hlt' : ∀ i : ℕ, i < j →
              (c + cnt) + (((rest.take (i + 1)).map (fun t => (t.1 : ℚ))).sum) < half := by
            intro i hi
            have := hlt (i + 1) (by omega)
            rw [List.take_succ_cons] at this
            simp only [List.map_cons, List.sum_cons] at this
            linarith
          have hge' : half ≤
              (c + cnt) + (((rest.take (j + 1)).map (fun t => (t.1 : ℚ))).sum) := by
            rw [List.take_succ_cons] at hge
            simp only [List.map_cons, List.sum_cons] at hge
            linarith
          rw [ih (c + cnt) j hj' hlt' hge']
          congr 1
          rw [List.take_succ_cons]
          simp only [List.map_cons, List.sum_cons, List.get_cons_succ]
          ring_nf

/-- C9: for a non-empty, non-degenerate focal-length sample list, the
histogram binner forms 20 equal-width bins over `[min, max]`, walks them
in ascending order accumulating per-bin counts, picks the first bin
whose running sum reaches half the sample count, and returns the
interpolated population midpoint
`edge_left + ((half - sumBefore) / binCount) * (edge_right - edge_left)`
inside that bin. -/
theorem claim_C9_population_midpoint :
    ∀ x : ℚ, ∀ xs : List ℚ, listMin x xs < listMax x xs →
      ∃ j : ℕ, j < 20 ∧
        (∀ i : ℕ, i < j →
          (((List.range (i + 1)).map
            (fun k => (histCount (listMin x xs) (listMax x xs) (x :: xs) k : ℚ))).sum) <
            ((x :: xs).length : ℚ) / 2) ∧
        ((x :: xs).length : ℚ) / 2 ≤
          (((List.range (j + 1)).map
            (fun k => (histCount (listMin x xs) (listMax x xs) (x :: xs) k : ℚ))).sum) ∧
        split_point (x :: xs) = some
          (binEdge (listMin x xs) (listMax x xs) j +
            ((((x :: xs).length : ℚ) / 2 -
              (((List.range j).map
                (fun k => (histCount (listMin x xs) (listMax x xs) (x :: xs) k : ℚ))).sum)) /
              (histCount (listMin x xs) (listMax x xs) (x :: xs) j : ℚ)) *
            (binEdge (listMin x xs) (listMax x xs) (j + 1) -
              binEdge (listMin x xs) (listMax x xs) j)) := by
  intro x xs hlt
  have hne : ¬listMin x xs = listMax x xs := ne_of_lt hlt
  have hpsum : ∀ k : ℕ, k ≤ 20 →
      ((((List.range 20).map (fun i =>
          (histCount (listMin x xs) (listMax x xs) (x :: xs) i,
           binEdge (listMin x xs) (listMax x xs) i,
           binEdge (listMin x xs) (listMax x xs) (i + 1)))).take k).map
        (fun t => (t.1 : ℚ))).sum =
      ((List.range k).map
        (fun i => (histCount (listMin x xs) (listMax x xs) (x :: xs) i : ℚ))).sum := by
    intro k hk
    rw [← List.map_take, List.take_range, Nat.min_eq_left hk, List.map_map]
    rfl
  have htotal :
      ((List.range 20).map
        (fun i => (histCount (listMin x xs) (listMax x xs) (x :: xs) i : ℚ))).sum =
      ((x :: xs).length : ℚ) := by
    have h2 := congrArg (fun n : ℕ => (n : ℚ))
      (sum_histCount_range (listMin x xs) (listMax x xs) (x :: xs))
    simpa [Nat.cast_list_sum, List.map_map, Function.comp] using h2
  have hP19 : ((x :: xs).length : ℚ) / 2 ≤
      ((List.range (19 + 1)).map
        (fun i => (histCount (listMin x xs) (listMax x xs) (x :: xs) i : ℚ))).sum := by
    have h20 : (19 : ℕ) + 1 = 20 := rfl
    rw [h20, htotal]
    have h0 : (0 : ℚ) ≤ ((x :: xs).length : ℚ) := by positivity
    linarith
  have hex : ∃ j : ℕ, ((x :: xs).length : ℚ) / 2 ≤
      ((List.range (j + 1)).map
        (fun i => (histCount (listMin x xs) (listMax x xs) (x :: xs) i : ℚ))).sum :=
    ⟨19, hP19⟩
  refine ⟨Nat.find hex, ?_, ?_, Nat.find_spec hex, ?_⟩
  · have := Nat.find_min' hex hP19
    omega
  · intro i hij
    exact not_le.1 (Nat.find_min hex hij)
  · have hj20 : Nat.find hex < 20 := by
      have := Nat.find_min' hex hP19
      omega
    have hjlen : Nat.find hex <
        ((List.range 20).map (fun i =>
          (histCount (listMin x xs) (listMax x xs) (x :: xs) i,
           binEdge (listMin x xs) (listMax x xs) i,
           binEdge (listMin x xs) (listMax x xs) (i + 1)))).length := by
      simpa using hj20
    have hspec := splitWalk_spec (((x :: xs).length : ℚ) / 2)
      ((List.range 20).map (fun i =>
        (histCount (listMin x xs) (listMax x xs) (x :: xs) i,
         binEdge (listMin x xs) (listMax x xs) i,
         binEdge (listMin x xs) (listMax x xs) (i + 1))))
      0 (Nat.find hex) hjlen
      (by
        intro i hi
        rw [hpsum (i + 1) (by omega), zero_add]
        exact not_le.1 (Nat.find_min hex hi))
      (by
        rw [hpsum (Nat.find hex + 1) (by omega), zero_add]
        exact Nat.find_spec hex)
    have hget : ((List.range 20).map (fun i =>
        (histCount (listMin x xs) (listMax x xs) (x :: xs) i,
         binEdge (listMin x xs) (listMax x xs) i,
         binEdge (listMin x xs) (listMax x xs) (i + 1)))).get ⟨Nat.find hex, hjlen⟩ =
        (histCount (listMin x xs) (listMax x xs) (x :: xs) (Nat.find hex),
         binEdge (listMin x xs) (listMax x xs) (Nat.find hex),
         binEdge (listMin x xs) (listMax x xs) (Nat.find hex + 1)) := by
      simp only [List.get_eq_getElem, List.getElem_map, List.getElem_range]
    simp only [split_point, if_neg hne]
    rw [hspec, hget, hpsum (Nat.find hex) (by omega), zero_add]

/-- C9 witness: the midpoint characterization applied to the sample list
`[20, 20, 20, 200, 200, 200]`. -/
theorem claim_C9_witness :
    ∃ j : ℕ, j < 20 ∧
      (∀ i : ℕ, i < j →
        (((List.range (i + 1)).map
          (fun k => (histCount (listMin 20 [20, 20, 200, 200, 200])
            (listMax 20 [20, 20, 200, 200, 200])
            ((20 : ℚ) :: [20, 20, 200, 200, 200]) k : ℚ))).sum) <
          ((((20 : ℚ) :: [20, 20, 200, 200, 200]).length : ℚ)) / 2) ∧
      ((((20 : ℚ) :: [20, 20, 200, 200, 200]).length : ℚ)) / 2 ≤
        (((List.range (j + 1)).map
          (fun k => (histCount (listMin 20 [20, 20, 200, 200, 200])
            (listMax 20 [20, 20, 200, 200, 200])
            ((20 : ℚ) :: [20, 20, 200, 200, 200]) k : ℚ))).sum) ∧
      split_point ((20 : ℚ) :: [20, 20, 200, 200, 200]) = some
        (binEdge (listMin 20 [20, 20, 200, 200, 200])
            (listMax 20 [20, 20, 200, 200, 200]) j +
          (((((20 : ℚ) :: [20, 20, 200, 200, 200]).length : ℚ) / 2 -
            (((List.range j).map
              (fun k => (histCount (listMin 20 [20, 20, 200, 200, 200])
                (listMax 20 [20, 20, 200, 200, 200])
                ((20 : ℚ) :: [20, 20, 200, 200, 200]) k : ℚ))).sum)) /
            (histCount (listMin 20 [20, 20, 200, 200, 200])
              (listMax 20 [20, 20, 200, 200, 200])
              ((20 : ℚ) :: [20, 20, 200, 200, 200]) j : ℚ)) *
          (binEdge (listMin 20 [20, 20, 200, 200, 200])
              (listMax 20 [20, 20, 200, 200, 200]) (j + 1) -
            binEdge (listMin 20 [20, 20, 200, 200, 200])
              (listMax 20 [20, 20, 200, 200, 200]) j)) :=
  claim_C9_population_midpoint 20 [20, 20, 200, 200, 200] (by decide)

end ImageAnalyse
